import Mathlib

/-!
# vogels: attribute (de)serialization — `lib/serializer.js`

A shallow embedding of `lib/serializer.js` and the properties of its record
serializer.

## The value model

The serializer is dynamically typed, so the embedding works over one type
`JsVal` of host values.  The fragment of the host language that is modelled:

* numbers are the mathematical integers plus `NaN` (`JsNum`); fractions,
  infinities, the exponent rendering of integers from `1e21` on and the
  rounding of integers beyond `2^53` are outside the model;
* `Number(text)` reads optional surrounding white space, an optional sign and
  decimal digits; any other text is `NaN` in the model;
* a date is its time value in milliseconds since the epoch, or none for an
  invalid date; the host is taken to run in UTC; `new Date(text)` reads the
  ISO-8601 UTC forms only;
* objects are plain objects: association lists of own properties in
  enumeration order, without a prototype chain;
* a thrown exception is the `error` case of `Except JsError`.
-/

namespace Vogels

/-! ## Host values -/

/-- A host number: an integer, or `NaN`. -/
inductive JsNum where
  | int (i : Int)
  | nan
  deriving DecidableEq, Repr

/-- A host value. -/
inductive JsVal where
  | undefined
  | null
  | bool (b : Bool)
  | num (n : JsNum)
  | str (s : String)
  | date (t : Option Int)
  | arr (xs : List JsVal)
  | obj (fields : List (String × JsVal))
  deriving Repr

/-- The exceptions the serializer and the host primitives it calls can throw:
`new Error(message)`, a `TypeError` and a `RangeError`. -/
inductive JsError where
  | error (message : String)
  | typeError
  | rangeError
  deriving DecidableEq, Repr

mutual
/-- Decidable equality of host values. -/
def JsVal.decEq : (a b : JsVal) → Decidable (a = b)
  | .undefined, .undefined => isTrue rfl
  | .null, .null => isTrue rfl
  | .bool a, .bool b => if h : a = b then isTrue (by rw [h]) else isFalse (by intro e; cases e; exact h rfl)
  | .num a, .num b => if h : a = b then isTrue (by rw [h]) else isFalse (by intro e; cases e; exact h rfl)
  | .str a, .str b => if h : a = b then isTrue (by rw [h]) else isFalse (by intro e; cases e; exact h rfl)
  | .date a, .date b => if h : a = b then isTrue (by rw [h]) else isFalse (by intro e; cases e; exact h rfl)
  | .arr a, .arr b =>
    match JsVal.decEqList a b with
    | isTrue h => isTrue (by rw [h])
    | isFalse h => isFalse (by intro e; cases e; exact h rfl)
  | .obj a, .obj b =>
    match JsVal.decEqProps a b with
    | isTrue h => isTrue (by rw [h])
    | isFalse h => isFalse (by intro e; cases e; exact h rfl)
  | .undefined, .null | .undefined, .bool _ | .undefined, .num _ | .undefined, .str _
  | .undefined, .date _ | .undefined, .arr _ | .undefined, .obj _ => isFalse (by intro e; cases e)
  | .null, .undefined | .null, .bool _ | .null, .num _ | .null, .str _
  | .null, .date _ | .null, .arr _ | .null, .obj _ => isFalse (by intro e; cases e)
  | .bool _, .undefined | .bool _, .null | .bool _, .num _ | .bool _, .str _
  | .bool _, .date _ | .bool _, .arr _ | .bool _, .obj _ => isFalse (by intro e; cases e)
  | .num _, .undefined | .num _, .null | .num _, .bool _ | .num _, .str _
  | .num _, .date _ | .num _, .arr _ | .num _, .obj _ => isFalse (by intro e; cases e)
  | .str _, .undefined | .str _, .null | .str _, .bool _ | .str _, .num _
  | .str _, .date _ | .str _, .arr _ | .str _, .obj _ => isFalse (by intro e; cases e)
  | .date _, .undefined | .date _, .null | .date _, .bool _ | .date _, .num _
  | .date _, .str _ | .date _, .arr _ | .date _, .obj _ => isFalse (by intro e; cases e)
  | .arr _, .undefined | .arr _, .null | .arr _, .bool _ | .arr _, .num _
  | .arr _, .str _ | .arr _, .date _ | .arr _, .obj _ => isFalse (by intro e; cases e)
  | .obj _, .undefined | .obj _, .null | .obj _, .bool _ | .obj _, .num _
  | .obj _, .str _ | .obj _, .date _ | .obj _, .arr _ => isFalse (by intro e; cases e)
/-- Decidable equality of arrays of host values. -/
def JsVal.decEqList : (a b : List JsVal) → Decidable (a = b)
  | [], [] => isTrue rfl
  | [], _ :: _ => isFalse (by intro e; cases e)
  | _ :: _, [] => isFalse (by intro e; cases e)
  | x :: xs, y :: ys =>
    match JsVal.decEq x y, JsVal.decEqList xs ys with
    | isTrue h, isTrue hs => isTrue (by rw [h, hs])
    | isFalse h, _ => isFalse (by intro e; cases e; exact h rfl)
    | _, isFalse hs => isFalse (by intro e; cases e; exact hs rfl)
/-- Decidable equality of property lists. -/
def JsVal.decEqProps : (a b : List (String × JsVal)) → Decidable (a = b)
  | [], [] => isTrue rfl
  | [], _ :: _ => isFalse (by intro e; cases e)
  | _ :: _, [] => isFalse (by intro e; cases e)
  | (k, x) :: xs, (l, y) :: ys =>
    if hk : k = l then
      match JsVal.decEq x y, JsVal.decEqProps xs ys with
      | isTrue h, isTrue hs => isTrue (by rw [hk, h, hs])
      | isFalse h, _ => isFalse (by intro e; cases e; exact h rfl)
      | _, isFalse hs => isFalse (by intro e; cases e; exact hs rfl)
    else isFalse (by intro e; cases e; exact hk rfl)
end

instance : DecidableEq JsVal := JsVal.decEq

instance {ε α : Type} [DecidableEq ε] [DecidableEq α] : DecidableEq (Except ε α)
  | .ok a, .ok b => if h : a = b then isTrue (by rw [h]) else isFalse (by intro e; cases e; exact h rfl)
  | .error a, .error b =>
    if h : a = b then isTrue (by rw [h]) else isFalse (by intro e; cases e; exact h rfl)
  | .ok _, .error _ => isFalse (by intro e; cases e)
  | .error _, .ok _ => isFalse (by intro e; cases e)

/-- The own properties of a plain object, in enumeration order. -/
abbrev Props := List (String × JsVal)

/-- The value is `null` (lodash `_.isNull`). -/
def JsVal.isNull : JsVal → Bool
  | .null => true
  | _ => false

/-- The value is an array (lodash `_.isArray`). -/
def JsVal.isArray : JsVal → Bool
  | .arr _ => true
  | _ => false

/-- The value is a date object (lodash `_.isDate`). -/
def JsVal.isDate : JsVal → Bool
  | .date _ => true
  | _ => false

/-- The value is a plain object (lodash `_.isPlainObject`). -/
def JsVal.isPlainObject : JsVal → Bool
  | .obj _ => true
  | _ => false

/-- Truthiness of a host number: zero and `NaN` are falsy. -/
def JsNum.truthy : JsNum → Bool
  | .int i => decide (i ≠ 0)
  | .nan => false

/-- Truthiness (`ToBoolean`): `undefined`, `null`, `false`, zero, `NaN` and
the empty string are falsy, everything else is truthy. -/
def JsVal.truthy : JsVal → Bool
  | .undefined => false
  | .null => false
  | .bool b => b
  | .num n => n.truthy
  | .str s => decide (s ≠ "")
  | .date _ => true
  | .arr _ => true
  | .obj _ => true

/-- Own-property test (lodash `_.has`); own properties are modelled for plain
objects, and `_.has` answers false on `null` and `undefined`. -/
def JsVal.has : JsVal → String → Bool
  | .obj fields, key => (fields.lookup key).isSome
  | _, _ => false

/-- Property read `value[key]`: a `TypeError` on `null` and `undefined`, the
own property of a plain object, and `undefined` where there is none. -/
def JsVal.getProp : JsVal → String → Except JsError JsVal
  | .undefined, _ => .error .typeError
  | .null, _ => .error .typeError
  | .obj fields, key => .ok ((fields.lookup key).getD .undefined)
  | _, _ => .ok .undefined

/-- Property write `result[key] = value` on a plain object: an existing
property keeps its place, a new one is appended. -/
def setProp (key : String) (value : JsVal) : Props → Props
  | [] => [(key, value)]
  | (k, v) :: rest =>
    if k = key then (key, value) :: rest else (k, v) :: setProp key value rest

/-! ## Numbers and text -/

/-- White space as `Number(text)` strips it. -/
def isJsWhitespace (c : Char) : Bool :=
  c.toNat ∈ [0x09, 0x0A, 0x0B, 0x0C, 0x0D, 0x20, 0xA0, 0x1680, 0x2000, 0x2001, 0x2002,
    0x2003, 0x2004, 0x2005, 0x2006, 0x2007, 0x2008, 0x2009, 0x200A, 0x2028, 0x2029,
    0x202F, 0x205F, 0x3000, 0xFEFF]

/-- Strip white space at both ends. -/
def trimWhitespace (cs : List Char) : List Char :=
  ((cs.dropWhile isJsWhitespace).reverse.dropWhile isJsWhitespace).reverse

/-- Read decimal digits onto the accumulator; none at the first character
that is not a digit. -/
def parseDigits (acc : Nat) : List Char → Option Nat
  | [] => some acc
  | c :: cs => if c.isDigit then parseDigits (acc * 10 + (c.toNat - 48)) cs else none

/-- A non-empty run of decimal digits. -/
def parseNat : List Char → Option Nat
  | [] => none
  | cs => parseDigits 0 cs

/-- The host `Number(text)` on the integer fragment. -/
def stringToNumber (s : String) : JsNum :=
  match trimWhitespace s.data with
  | [] => .int 0
  | c :: ds =>
    if c = '-' then
      match parseNat ds with
      | some n => .int (-(n : Int))
      | none => .nan
    else if c = '+' then
      match parseNat ds with
      | some n => .int n
      | none => .nan
    else
      match parseNat (c :: ds) with
      | some n => .int n
      | none => .nan

/-- The host `Number.prototype.toString`: decimal text. -/
def JsNum.toStr : JsNum → String
  | .int i => toString i
  | .nan => "NaN"

/-! ## Dates -/

/-- Days since the epoch to year, month and day of the proleptic Gregorian
calendar. -/
def civilFromDays (days : Int) : Int × Int × Int :=
  let z := days + 719468
  let era := z / 146097
  let doe := z % 146097
  let yoe := (doe - doe / 1460 + doe / 36524 - doe / 146096) / 365
  let y := yoe + era * 400
  let doy := doe - (365 * yoe + yoe / 4 - yoe / 100)
  let mp := (5 * doy + 2) / 153
  let d := doy - (153 * mp + 2) / 5 + 1
  let m := if mp < 10 then mp + 3 else mp - 9
  (if m ≤ 2 then y + 1 else y, m, d)

/-- Year, month and day to days since the epoch. -/
def daysFromCivil (year month day : Int) : Int :=
  let y := if month ≤ 2 then year - 1 else year
  let era := y / 400
  let yoe := y % 400
  let mp := if month > 2 then month - 3 else month + 9
  let doy := (153 * mp + 2) / 5 + day - 1
  let doe := yoe * 365 + yoe / 4 - yoe / 100 + doy
  era * 146097 + doe - 719468

/-- Decimal text of a natural number, zero-padded on the left to a width. -/
def padZero (width n : Nat) : String :=
  String.mk (List.replicate (width - (toString n).length) '0') ++ toString n

/-- The year of an ISO-8601 text: four digits, or a sign and six digits
outside the years 0 to 9999. -/
def isoYear (y : Int) : String :=
  if 0 ≤ y ∧ y ≤ 9999 then padZero 4 y.toNat
  else (if y < 0 then "-" else "+") ++ padZero 6 y.natAbs

/-- The host `Date.prototype.toISOString` of a valid time value. -/
def isoString (t : Int) : String :=
  let (y, m, d) := civilFromDays (t / 86400000)
  isoYear y ++ "-" ++ padZero 2 m.toNat ++ "-" ++ padZero 2 d.toNat ++ "T" ++
    padZero 2 ((t / 3600000) % 24).toNat ++ ":" ++ padZero 2 ((t / 60000) % 60).toNat ++ ":" ++
    padZero 2 ((t / 1000) % 60).toNat ++ "." ++ padZero 3 (t % 1000).toNat ++ "Z"

/-- The host `toISOString`: a `RangeError` on an invalid date. -/
def toISOString : Option Int → Except JsError String
  | none => .error .rangeError
  | some t => .ok (isoString t)

/-- The host `TimeClip`: a time value beyond 8.64e15 ms is invalid. -/
def timeClip (t : Int) : Option Int :=
  if t.natAbs ≤ 8640000000000000 then some t else none

/-- Time of day in milliseconds from hours, minutes, seconds, milliseconds. -/
def timeOfDay (h mi s ms : Nat) : Option Int :=
  if h < 24 ∧ mi < 60 ∧ s < 60 then some ((((h * 60 + mi) * 60 + s) * 1000 + ms : Nat) : Int)
  else none

/-- The time part of an ISO-8601 UTC text, after the date: nothing, or
`THH:mm:ssZ`, or `THH:mm:ss.sssZ`. -/
def parseIsoTime : List Char → Option Int
  | [] => some 0
  | ['T', h1, h2, ':', m1, m2, ':', s1, s2, 'Z'] => do
    let h ← parseNat [h1, h2]
    let mi ← parseNat [m1, m2]
    let s ← parseNat [s1, s2]
    timeOfDay h mi s 0
  | ['T', h1, h2, ':', m1, m2, ':', s1, s2, '.', f1, f2, f3, 'Z'] => do
    let h ← parseNat [h1, h2]
    let mi ← parseNat [m1, m2]
    let s ← parseNat [s1, s2]
    let ms ← parseNat [f1, f2, f3]
    timeOfDay h mi s ms
  | _ => none

/-- Month, day and time part after the year of an ISO-8601 UTC text. -/
def parseIsoRest (year : Int) : List Char → Option Int
  | '-' :: m1 :: m2 :: '-' :: d1 :: d2 :: rest => do
    let m ← parseNat [m1, m2]
    let d ← parseNat [d1, d2]
    let time ← parseIsoTime rest
    if 1 ≤ m ∧ m ≤ 12 ∧ 1 ≤ d ∧ d ≤ 31 then
      timeClip (daysFromCivil year m d * 86400000 + time)
    else none
  | _ => none

/-- The host `Date.parse` on the ISO-8601 UTC forms; none is `NaN`. -/
def dateParse (s : String) : Option Int :=
  match s.data with
  | '+' :: y1 :: y2 :: y3 :: y4 :: y5 :: y6 :: rest =>
    (parseNat [y1, y2, y3, y4, y5, y6]).bind fun y => parseIsoRest y rest
  | '-' :: y1 :: y2 :: y3 :: y4 :: y5 :: y6 :: rest =>
    (parseNat [y1, y2, y3, y4, y5, y6]).bind fun y => parseIsoRest (-(y : Int)) rest
  | y1 :: y2 :: y3 :: y4 :: rest =>
    (parseNat [y1, y2, y3, y4]).bind fun y => parseIsoRest y rest
  | _ => none

/-- English short name of a week day, Sunday being 0. -/
def weekDayName (d : Int) : String :=
  (["Sun", "Mon", "Tue", "Wed", "Thu", "Fri", "Sat"].get? d.toNat).getD ""

/-- English short name of a month, January being 1. -/
def monthName (m : Int) : String :=
  (["Jan", "Feb", "Mar", "Apr", "May", "Jun", "Jul", "Aug", "Sep", "Oct", "Nov",
    "Dec"].get? (m.toNat - 1)).getD ""

/-- The host `Date.prototype.toString` on a host running in UTC. -/
def dateToStr : Option Int → String
  | none => "Invalid Date"
  | some t =>
    let days := t / 86400000
    let (y, m, d) := civilFromDays days
    weekDayName ((days + 4) % 7) ++ " " ++ monthName m ++ " " ++ padZero 2 d.toNat ++ " " ++
      (if y < 0 then "-" ++ padZero 6 y.natAbs else padZero 4 y.toNat) ++ " " ++
      padZero 2 ((t / 3600000) % 24).toNat ++ ":" ++ padZero 2 ((t / 60000) % 60).toNat ++ ":" ++
      padZero 2 ((t / 1000) % 60).toNat ++ " GMT+0000 (Coordinated Universal Time)"

/-! ## Conversions -/

mutual
/-- The host `ToString`: arrays join the texts of their elements with commas,
a plain object is `[object Object]`. -/
def JsVal.toStr : JsVal → String
  | .undefined => "undefined"
  | .null => "null"
  | .bool b => if b then "true" else "false"
  | .num n => n.toStr
  | .str s => s
  | .date t => dateToStr t
  | .arr xs => JsVal.joinStr xs
  | .obj _ => "[object Object]"
/-- The host `Array.prototype.join` with a comma: `null` and `undefined`
elements give the empty text. -/
def JsVal.joinStr : List JsVal → String
  | [] => ""
  | [x] => JsVal.elemStr x
  | x :: y :: rest => JsVal.elemStr x ++ "," ++ JsVal.joinStr (y :: rest)
/-- The text of one array element inside a join. -/
def JsVal.elemStr : JsVal → String
  | .undefined => ""
  | .null => ""
  | .bool b => if b then "true" else "false"
  | .num n => n.toStr
  | .str s => s
  | .date t => dateToStr t
  | .arr xs => JsVal.joinStr xs
  | .obj _ => "[object Object]"
end

/-- The method call `value.toString()`: a `TypeError` on `null` and
`undefined`, which have no properties. -/
def JsVal.toStringMethod : JsVal → Except JsError String
  | .undefined => .error .typeError
  | .null => .error .typeError
  | v => .ok v.toStr

/-- The host `Number(value)` (`ToNumber`). -/
def JsVal.toNumber : JsVal → JsNum
  | .undefined => .nan
  | .null => .int 0
  | .bool b => if b then .int 1 else .int 0
  | .num n => n
  | .str s => stringToNumber s
  | .date (some t) => .int t
  | .date none => .nan
  | .arr xs => stringToNumber (JsVal.joinStr xs)
  | .obj _ => .nan

/-- The host `Boolean(value)`. -/
def JsNum.toBoolean (n : JsNum) : Bool := n.truthy

/-- The host `new Date(value)`: a date is copied, a text is parsed, any other
value is converted to a number of milliseconds. -/
def newDate : JsVal → Option Int
  | .date t => t
  | .str s => dateParse s
  | .arr xs => dateParse (JsVal.joinStr xs)
  | .obj _ => none
  | v =>
    match v.toNumber with
    | .int t => timeClip t
    | .nan => none

/-- Lodash `_.map` over a collection: the elements of an array, the property
values of a plain object, the characters of a text; nothing otherwise. -/
def lodashMap (f : JsVal → JsVal) : JsVal → List JsVal
  | .arr xs => xs.map f
  | .obj fields => fields.map fun kv => f kv.2
  | .str s => s.data.map fun c => f (.str (String.singleton c))
  | _ => []

/-! ## The schema -/

/-- The type object of an attribute descriptor; the serializer reads its
`type` tag only. -/
structure AttrType where
  type : String
  deriving DecidableEq, Repr

/-- An attribute descriptor of a schema (`schema.attrs[key]`). -/
structure Attr where
  type : AttrType
  deriving DecidableEq, Repr

/-- What the serializer reads of a schema: `hashKey`, the optional `rangeKey`
and the attribute descriptors `attrs` in enumeration order. -/
structure Schema where
  hashKey : String
  rangeKey : Option String
  attrs : List (String × Attr)
  deriving Repr

/-- Truthiness of `schema.rangeKey`: declared and not the empty text. -/
def Schema.hasRangeKey (schema : Schema) : Bool :=
  match schema.rangeKey with
  | some k => decide (k ≠ "")
  | none => false

/-- The options of `serializeItem`, each read for its truthiness; an absent
options object is the all-false one. -/
structure Options where
  convertSets : Bool := false
  returnNulls : Bool := false
  expected : Bool := false
  deriving DecidableEq, Repr

/-- The options object of a call that passes none (`options || {}`). -/
def noOptions : Options := ⟨false, false, false⟩

/-- The closed set of type tags the type switch knows. -/
def supportedTypes : List String :=
  ["String", "UUID", "TimeUUID", "Number", "Date", "Boolean", "NumberSet", "StringSet"]

/-- The error of the default branch of the type switch:
`new Error('Unsupported schema type - ' + type)`. -/
def unsupportedType (type : String) : JsError :=
  .error ("Unsupported schema type - " ++ type)

/-! ## `internals.serialize` -/

/-- `serialize.string`: the value under the tag `S`, untouched. -/
def serialize.string (value : JsVal) : JsVal :=
  .obj [("S", value)]

/-- `serialize.number`: `value.toString()` under the tag `N`. -/
def serialize.number (value : JsVal) : Except JsError JsVal := do
  let text ← value.toStringMethod
  pure (.obj [("N", .str text)])

/-- `serialize.date`: the ISO text of a date object, or of the date built from
any other value, under the tag `S`. -/
def serialize.date (value : JsVal) : Except JsError JsVal :=
  match value with
  | .date t => do
    let text ← toISOString t
    pure (.obj [("S", .str text)])
  | v => do
    let text ← toISOString (newDate v)
    pure (.obj [("S", .str text)])

/-- The test of `serialize.boolean`: `value && value !== 'false'`. -/
def serialize.booleanTest : JsVal → Bool
  | .str s => decide (s ≠ "") && decide (s ≠ "false")
  | v => v.truthy

/-- `serialize.boolean`: `1` or `0` under the tag `N`. -/
def serialize.boolean (value : JsVal) : JsVal :=
  if serialize.booleanTest value then .obj [("N", .str "1")] else .obj [("N", .str "0")]

/-- `serialize.stringSet`: the `toString()` of each element of an array, or of
the value itself, under the tag `SS`. -/
def serialize.stringSet (value : JsVal) : Except JsError JsVal :=
  match value with
  | .arr xs => do
    let texts ← xs.mapM fun v => v.toStringMethod
    pure (.obj [("SS", .arr (texts.map .str))])
  | v => do
    let text ← v.toStringMethod
    pure (.obj [("SS", .arr [.str text])])

/-- `serialize.numberSet`: `Number(v).toString()` of each element of an array,
or of the value itself, under the tag `NS`. -/
def serialize.numberSet (value : JsVal) : JsVal :=
  match value with
  | .arr xs => .obj [("NS", .arr (xs.map fun v => .str v.toNumber.toStr))]
  | v => .obj [("NS", .arr [.str v.toNumber.toStr])]

/-! ## `internals.deserializer` -/

/-- `deserializer.number`: `Number` of the truthy `N`, else of the truthy `S`,
else `null`. -/
def deserializer.number (value : JsVal) : Except JsError JsVal := do
  let n ← value.getProp "N"
  if n.truthy then pure (.num n.toNumber)
  else
    let s ← value.getProp "S"
    if s.truthy then pure (.num s.toNumber)
    else pure .null

/-- `deserializer.boolean`: `Boolean(Number(N))` of the truthy `N`, else
whether the truthy `S` is the text `true`, else `false`. -/
def deserializer.boolean (value : JsVal) : Except JsError JsVal := do
  let n ← value.getProp "N"
  if n.truthy then pure (.bool n.toNumber.toBoolean)
  else
    let s ← value.getProp "S"
    if s.truthy then
      pure (.bool (match s with
        | .str t => decide (t = "true")
        | _ => false))
    else pure (.bool false)

/-- `deserializer.string`: the truthy `S`, else the truthy `N`, else `null`. -/
def deserializer.string (value : JsVal) : Except JsError JsVal := do
  let s ← value.getProp "S"
  if s.truthy then pure s
  else
    let n ← value.getProp "N"
    if n.truthy then pure n
    else pure .null

/-- `deserializer.date`: `new Date` of the truthy `S`, else of the truthy `N`,
else `null`. -/
def deserializer.date (value : JsVal) : Except JsError JsVal := do
  let s ← value.getProp "S"
  if s.truthy then pure (.date (newDate s))
  else
    let n ← value.getProp "N"
    if n.truthy then pure (.date (newDate n))
    else pure .null

/-- `deserializer.numberSet`: the numbers of the truthy `NS`, else of the
truthy `SS`, else the one number of `S`, else of `N`, else the empty array. -/
def deserializer.numberSet (value : JsVal) : Except JsError JsVal := do
  let ns ← value.getProp "NS"
  if ns.truthy then pure (.arr (lodashMap (fun numString => .num numString.toNumber) ns))
  else
    let ss ← value.getProp "SS"
    if ss.truthy then pure (.arr (lodashMap (fun numString => .num numString.toNumber) ss))
    else
      let s ← value.getProp "S"
      if s.truthy then pure (.arr [.num s.toNumber])
      else
        let n ← value.getProp "N"
        if n.truthy then pure (.arr [.num n.toNumber])
        else pure (.arr [])

/-- `deserializer.stringSet`: the truthy `SS`, else the truthy `NS`, else the
one-element array of `S`, else of `N`, else the empty array. -/
def deserializer.stringSet (value : JsVal) : Except JsError JsVal := do
  let ss ← value.getProp "SS"
  if ss.truthy then pure ss
  else
    let ns ← value.getProp "NS"
    if ns.truthy then pure ns
    else
      let s ← value.getProp "S"
      if s.truthy then pure (.arr [s])
      else
        let n ← value.getProp "N"
        if n.truthy then pure (.arr [n])
        else pure (.arr [])

/-! ## Attribute dispatch -/

/-- `internals.deserializeAttribute`: `null` for a falsy wire value or a
missing descriptor, else the decoder the type tag selects. -/
def internals.deserializeAttribute (value : JsVal) (attr : Option Attr) :
    Except JsError JsVal :=
  match attr with
  | none => pure .null
  | some attr =>
    if !value.truthy then pure .null
    else
      let type := attr.type.type
      if type = "String" ∨ type = "UUID" ∨ type = "TimeUUID" then deserializer.string value
      else if type = "Number" then deserializer.number value
      else if type = "Date" then deserializer.date value
      else if type = "Boolean" then deserializer.boolean value
      else if type = "NumberSet" then deserializer.numberSet value
      else if type = "StringSet" then deserializer.stringSet value
      else throw (unsupportedType type)

/-- `internals.serializeAttribute`: `null` for a missing descriptor or a
`null` value, else the encoder the type tag selects. -/
def internals.serializeAttribute (value : JsVal) (attr : Option Attr) (options : Options) :
    Except JsError JsVal :=
  match attr with
  | none => pure .null
  | some attr =>
    if value.isNull then pure .null
    else
      let type := attr.type.type
      if type = "String" ∨ type = "UUID" ∨ type = "TimeUUID" then pure (serialize.string value)
      else if type = "Number" then serialize.number value
      else if type = "Date" then serialize.date value
      else if type = "Boolean" then pure (serialize.boolean value)
      else if type = "NumberSet" then
        if options.convertSets then serialize.number value
        else pure (serialize.numberSet value)
      else if type = "StringSet" then
        if options.convertSets then pure (serialize.string value)
        else serialize.stringSet value
      else throw (unsupportedType type)

/-! ## The record serializer -/

/-- The callback `serializeItem` reduces `schema.attrs` with. -/
def serializer.serializeItemStep (item : JsVal) (options : Options) (result : Props)
    (entry : String × Attr) : Except JsError Props :=
  let key := entry.1
  let attr := entry.2
  if item.has key then do
    let value ← item.getProp key
    let val ← internals.serializeAttribute value (some attr) options
    if !val.isNull || options.returnNulls then
      if options.expected then pure (setProp key (.obj [("Value", val)]) result)
      else pure (setProp key val result)
    else pure result
  else pure result

/-- `serializer.serializeItem (schema, item, options)`. -/
def serializer.serializeItem (schema : Schema) (item : JsVal) (options : Options) :
    Except JsError JsVal :=
  if !item.truthy then pure .null
  else do
    let serialized ← schema.attrs.foldlM (serializer.serializeItemStep item options) []
    pure (.obj serialized)

/-- `serializer.buildKey (hashKey, rangeKey, schema)`. -/
def serializer.buildKey (hashKey rangeKey : JsVal) (schema : Schema) : Except JsError JsVal := do
  let obj ←
    if hashKey.isPlainObject then do
      let h ← hashKey.getProp schema.hashKey
      let obj := setProp schema.hashKey h []
      match schema.rangeKey with
      | some rk =>
        if schema.hasRangeKey then do
          let r ← hashKey.getProp rk
          pure (setProp rk r obj)
        else pure obj
      | none => pure obj
    else
      let obj := setProp schema.hashKey hashKey []
      match schema.rangeKey with
      | some rk =>
        if schema.hasRangeKey then pure (setProp rk rangeKey obj)
        else pure obj
      | none => pure obj
  serializer.serializeItem schema (.obj obj) noOptions

/-- The test `value.$add` resp. `value.$del` of a plain object value. -/
def directive (value : JsVal) (name : String) : Option JsVal :=
  match value with
  | .obj fields =>
    let d := (fields.lookup name).getD .undefined
    if d.truthy then some d else none
  | _ => none

/-- The callback `serializeItemForUpdate` reduces `schema.attrs` with. -/
def serializer.serializeItemForUpdateStep (schema : Schema) (action : JsVal) (item : JsVal)
    (result : Props) (entry : String × Attr) : Except JsError Props :=
  let key := entry.1
  let attr := entry.2
  if item.has key ∧ key ≠ schema.hashKey ∧ schema.rangeKey ≠ some key then do
    let value ← item.getProp key
    if value.isNull then
      pure (setProp key (.obj [("Action", .str "DELETE")]) result)
    else
      match directive value "$add" with
      | some add => do
        let enc ← internals.serializeAttribute add (some attr) noOptions
        pure (setProp key (.obj [("Action", .str "ADD"), ("Value", enc)]) result)
      | none =>
        match directive value "$del" with
        | some del => do
          let enc ← internals.serializeAttribute del (some attr) noOptions
          pure (setProp key (.obj [("Action", .str "DELETE"), ("Value", enc)]) result)
        | none => do
          let enc ← internals.serializeAttribute value (some attr) noOptions
          pure (setProp key (.obj [("Action", action), ("Value", enc)]) result)
  else pure result

/-- `serializer.serializeItemForUpdate (schema, action, item)`. -/
def serializer.serializeItemForUpdate (schema : Schema) (action : JsVal) (item : JsVal) :
    Except JsError JsVal := do
  let result ← schema.attrs.foldlM (serializer.serializeItemForUpdateStep schema action item) []
  pure (.obj result)

/-- The callback `deserializeItem` reduces `schema.attrs` with. -/
def serializer.deserializeItemStep (item : JsVal) (result : Props) (entry : String × Attr) :
    Except JsError Props := do
  let value ← item.getProp entry.1
  let decoded ← internals.deserializeAttribute value (some entry.2)
  pure (setProp entry.1 decoded result)

/-- `serializer.deserializeItem (schema, item)`. -/
def serializer.deserializeItem (schema : Schema) (item : JsVal) : Except JsError JsVal :=
  if !item.truthy then pure .null
  else do
    let deserialized ← schema.attrs.foldlM (serializer.deserializeItemStep item) []
    pure (.obj deserialized)

/-- `serializer.deserializeKeys (schema, item)`. -/
def serializer.deserializeKeys (schema : Schema) (item : JsVal) : Except JsError JsVal := do
  let hashValue ← item.getProp schema.hashKey
  let hash ← internals.deserializeAttribute hashValue (schema.attrs.lookup schema.hashKey)
  let result := setProp schema.hashKey hash []
  match schema.rangeKey with
  | some rk =>
    if schema.hasRangeKey then do
      let rangeValue ← item.getProp rk
      let range ← internals.deserializeAttribute rangeValue (schema.attrs.lookup rk)
      pure (.obj (setProp rk range result))
    else pure (.obj result)
  | none => pure (.obj result)

/-! ## Reductions as write steps

The three reductions over `schema.attrs` share one shape: each step decides
from the entry alone whether to write a property, and which. The definitions
below name that shape; the step functions above are proved equal to them. -/

/-- What one step of a reduction does to the result object: write the
property, or leave the object as it is. -/
def applyWrite (key : String) (result : Props) : Option JsVal → Props
  | some v => setProp key v result
  | none => result

/-- A reduction step that decides from the entry alone what to write. -/
def writeStep (w : String × Attr → Except JsError (Option JsVal)) (result : Props)
    (entry : String × Attr) : Except JsError Props :=
  match w entry with
  | .ok o => .ok (applyWrite entry.1 result o)
  | .error err => .error err

/-- What the callback of `serializeItem` writes for an entry. -/
def serializeItemWrite (item : JsVal) (options : Options) (entry : String × Attr) :
    Except JsError (Option JsVal) :=
  if item.has entry.1 then
    match item.getProp entry.1 with
    | .error err => .error err
    | .ok value =>
      match internals.serializeAttribute value (some entry.2) options with
      | .error err => .error err
      | .ok val =>
        if !val.isNull || options.returnNulls then
          .ok (some (if options.expected then .obj [("Value", val)] else val))
        else .ok none
  else .ok none

/-- What the callback of `deserializeItem` writes for an entry. -/
def deserializeItemWrite (item : JsVal) (entry : String × Attr) :
    Except JsError (Option JsVal) :=
  match item.getProp entry.1 with
  | .error err => .error err
  | .ok value =>
    match internals.deserializeAttribute value (some entry.2) with
    | .error err => .error err
    | .ok decoded => .ok (some decoded)

/-- What the callback of `serializeItemForUpdate` writes for an entry. -/
def updateWrite (schema : Schema) (action : JsVal) (item : JsVal) (entry : String × Attr) :
    Except JsError (Option JsVal) :=
  if item.has entry.1 ∧ entry.1 ≠ schema.hashKey ∧ schema.rangeKey ≠ some entry.1 then
    match item.getProp entry.1 with
    | .error err => .error err
    | .ok value =>
      if value.isNull then .ok (some (.obj [("Action", .str "DELETE")]))
      else
        match directive value "$add" with
        | some add =>
          match internals.serializeAttribute add (some entry.2) noOptions with
          | .error err => .error err
          | .ok enc => .ok (some (.obj [("Action", .str "ADD"), ("Value", enc)]))
        | none =>
          match directive value "$del" with
          | some del =>
            match internals.serializeAttribute del (some entry.2) noOptions with
            | .error err => .error err
            | .ok enc => .ok (some (.obj [("Action", .str "DELETE"), ("Value", enc)]))
          | none =>
            match internals.serializeAttribute value (some entry.2) noOptions with
            | .error err => .error err
            | .ok enc => .ok (some (.obj [("Action", action), ("Value", enc)]))
  else .ok none

/-- The wire value `serializeItem` gives a text or an integer. -/
def scalarWire : JsVal → JsVal
  | .str s => .obj [("S", .str s)]
  | .num (.int i) => .obj [("N", .str (toString i))]
  | _ => .null

/-- The `expected` form of a result of `serializeItem`: each wire value `w`
becomes the object with the one field `Value` holding `w`. -/
def wrapExpected : JsVal → JsVal
  | .obj props => .obj (props.map fun kv => (kv.1, .obj [("Value", kv.2)]))
  | v => v

/-! ## Definitions the statements use -/

/-- The descriptor a set-typed attribute has under `convertSets`: StringSet
read as String, NumberSet read as Number, any other descriptor unchanged. -/
def scalarAttr (attr : Attr) : Attr :=
  if attr.type.type = "StringSet" then ⟨⟨"String"⟩⟩
  else if attr.type.type = "NumberSet" then ⟨⟨"Number"⟩⟩
  else attr

/-- The schema with every set-typed attribute read as its scalar type. -/
def scalarSchema (schema : Schema) : Schema :=
  ⟨schema.hashKey, schema.rangeKey, schema.attrs.map fun e => (e.1, scalarAttr e.2)⟩

/-! ## Decimal text of an integer reads back as the integer -/

theorem digitChar_spec : ∀ d, d < 10 →
    (Nat.digitChar d).isDigit = true ∧ (Nat.digitChar d).toNat - 48 = d ∧
    isJsWhitespace (Nat.digitChar d) = false ∧ Nat.digitChar d ≠ '-' ∧
    Nat.digitChar d ≠ '+' := by
  decide

theorem toDigitsCore_append (f : Nat) : ∀ (n : Nat) (ds : List Char),
    Nat.toDigitsCore 10 f n ds = Nat.toDigitsCore 10 f n [] ++ ds := by
  induction f with
  | zero => intro n ds; simp [Nat.toDigitsCore]
  | succ f ih =>
    intro n ds
    simp only [Nat.toDigitsCore]
    split
    · simp
    · rw [ih (n / 10) (Nat.digitChar (n % 10) :: ds), ih (n / 10) [Nat.digitChar (n % 10)]]
      simp

theorem toDigitsCore_mem (f : Nat) : ∀ (n : Nat) (c : Char),
    c ∈ Nat.toDigitsCore 10 f n [] → ∃ d, d < 10 ∧ c = Nat.digitChar d := by
  induction f with
  | zero => intro n c h; simp [Nat.toDigitsCore] at h
  | succ f ih =>
    intro n c h
    simp only [Nat.toDigitsCore] at h
    split at h
    · simp only [List.mem_singleton] at h
      exact ⟨n % 10, Nat.mod_lt _ (by decide), h⟩
    · rw [toDigitsCore_append] at h
      rcases List.mem_append.1 h with h | h
      · exact ih _ _ h
      · simp only [List.mem_singleton] at h
        exact ⟨n % 10, Nat.mod_lt _ (by decide), h⟩

theorem toDigitsCore_ne_nil (f n : Nat) : Nat.toDigitsCore 10 (f + 1) n [] ≠ [] := by
  simp only [Nat.toDigitsCore]
  split
  · simp
  · rw [toDigitsCore_append]; simp

theorem parseDigits_append (xs : List Char) : ∀ (acc : Nat) (c : Char),
    parseDigits acc (xs ++ [c]) =
      (parseDigits acc xs).bind fun m =>
        if c.isDigit then some (m * 10 + (c.toNat - 48)) else none := by
  induction xs with
  | nil => intro acc c; simp [parseDigits]
  | cons x xs ih =>
    intro acc c
    simp only [List.cons_append, parseDigits]
    split
    · exact ih _ _
    · simp

theorem parseDigits_toDigitsCore (f : Nat) : ∀ n, n < f →
    parseDigits 0 (Nat.toDigitsCore 10 f n []) = some n := by
  induction f with
  | zero => intro n h; omega
  | succ f ih =>
    intro n h
    have hd := digitChar_spec (n % 10) (Nat.mod_lt _ (by decide))
    simp only [Nat.toDigitsCore]
    split
    · rename_i h0
      simp only [parseDigits, hd.1, hd.2.1, if_true]
      congr 1
      omega
    · rename_i h0
      rw [toDigitsCore_append, parseDigits_append, ih (n / 10) (by omega)]
      simp only [Option.some_bind, hd.1, hd.2.1, if_true]
      congr 1
      omega

theorem parseNat_toDigits (n : Nat) : parseNat (Nat.toDigits 10 n) = some n := by
  have h := parseDigits_toDigitsCore (n + 1) n (by omega)
  have hne := toDigitsCore_ne_nil n n
  unfold Nat.toDigits
  cases hl : Nat.toDigitsCore 10 (n + 1) n [] with
  | nil => exact absurd hl hne
  | cons c cs => rw [hl] at h; simpa [parseNat] using h

theorem dropWhile_eq_self_of_head {p : Char → Bool} : ∀ (cs : List Char),
    (∀ c, cs.head? = some c → p c = false) → cs.dropWhile p = cs
  | [], _ => rfl
  | c :: cs, h => by simp [List.dropWhile, h c rfl]

theorem trimWhitespace_eq_self (cs : List Char)
    (h : ∀ c ∈ cs, isJsWhitespace c = false) : trimWhitespace cs = cs := by
  unfold trimWhitespace
  rw [dropWhile_eq_self_of_head cs (fun c hc => h c (List.mem_of_mem_head? hc)),
    dropWhile_eq_self_of_head cs.reverse
      (fun c hc => h c (List.mem_reverse.1 (List.mem_of_mem_head? hc))),
    List.reverse_reverse]

theorem toDigits_not_whitespace (n : Nat) :
    ∀ c ∈ Nat.toDigits 10 n, isJsWhitespace c = false := by
  intro c hc
  obtain ⟨d, hd, rfl⟩ := toDigitsCore_mem _ _ _ hc
  exact (digitChar_spec d hd).2.2.1

/-- Reading the decimal text of an integer gives the integer back. -/
theorem stringToNumber_toString (i : Int) : stringToNumber (toString i) = .int i := by
  cases i with
  | ofNat n =>
    have hdata : (toString (Int.ofNat n)).data = Nat.toDigits 10 n := rfl
    unfold stringToNumber
    rw [hdata, trimWhitespace_eq_self _ (toDigits_not_whitespace n)]
    have hp := parseNat_toDigits n
    cases hl : Nat.toDigits 10 n with
    | nil => rw [hl] at hp; simp [parseNat] at hp
    | cons c cs =>
      have hc : c ∈ Nat.toDigits 10 n := by rw [hl]; simp
      obtain ⟨d, hd, rfl⟩ := toDigitsCore_mem _ _ _ hc
      have hs := digitChar_spec d hd
      rw [hl] at hp
      simp only [hs.2.2.2.1, hs.2.2.2.2, if_false, hp]
      rfl
  | negSucc n =>
    have hdata : (toString (Int.negSucc n)).data = '-' :: Nat.toDigits 10 (n + 1) := rfl
    unfold stringToNumber
    have hws : ∀ c ∈ '-' :: Nat.toDigits 10 (n + 1), isJsWhitespace c = false := by
      intro c hc
      rcases List.mem_cons.1 hc with rfl | hc
      · decide
      · exact toDigits_not_whitespace _ c hc
    rw [hdata, trimWhitespace_eq_self _ hws]
    simp only [if_true, parseNat_toDigits]
    rfl

/-- The decimal text of an integer is not empty. -/
theorem toString_int_ne_empty (i : Int) : toString i ≠ "" := by
  intro h
  have hd : (toString i).data = [] := by rw [h]
  cases i with
  | ofNat n =>
    have hdata : (toString (Int.ofNat n)).data = Nat.toDigits 10 n := rfl
    rw [hdata] at hd
    exact toDigitsCore_ne_nil n n hd
  | negSucc n =>
    have hdata : (toString (Int.negSucc n)).data = '-' :: Nat.toDigits 10 (n + 1) := rfl
    rw [hdata] at hd
    exact List.cons_ne_nil _ _ hd

/-! ## Property writes and reductions over `schema.attrs` -/

theorem lookup_setProp_self (key : String) (value : JsVal) (props : Props) :
    (setProp key value props).lookup key = some value := by
  induction props with
  | nil => simp [setProp, List.lookup]
  | cons p rest ih =>
    obtain ⟨k, v⟩ := p
    by_cases h : k = key
    · simp [setProp, h, List.lookup]
    · have h2 : (key == k) = false := by simpa using fun e => h e.symm
      simp [setProp, h, List.lookup, h2, ih]

theorem lookup_setProp_ne {key other : String} (h : other ≠ key) (value : JsVal)
    (props : Props) : (setProp key value props).lookup other = props.lookup other := by
  induction props with
  | nil =>
    have h2 : (other == key) = false := by simpa using h
    simp [setProp, List.lookup, h2]
  | cons p rest ih =>
    obtain ⟨k, v⟩ := p
    by_cases hk : k = key
    · subst hk
      have h2 : (other == k) = false := by simpa using h
      simp [setProp, List.lookup, h2]
    · by_cases ho : other = k
      · subst ho
        simp [setProp, hk, List.lookup]
      · have h2 : (other == k) = false := by simpa using ho
        simp [setProp, hk, List.lookup, h2, ih]

theorem foldlM_writeStep_cons (w : String × Attr → Except JsError (Option JsVal))
    (acc : Props) (e : String × Attr) (l : List (String × Attr)) :
    (e :: l).foldlM (writeStep w) acc =
      match w e with
      | .ok o => l.foldlM (writeStep w) (applyWrite e.1 acc o)
      | .error err => .error err := by
  simp only [List.foldlM_cons, writeStep]
  cases w e <;> rfl

/-- A property of the result comes from the initial object or from a write. -/
theorem writeStep_lookup_origin (w : String × Attr → Except JsError (Option JsVal))
    (k : String) (v : JsVal) (l : List (String × Attr)) :
    ∀ (acc r : Props), l.foldlM (writeStep w) acc = .ok r → r.lookup k = some v →
      acc.lookup k = some v ∨ ∃ e ∈ l, e.1 = k ∧ w e = .ok (some v) := by
  induction l with
  | nil =>
    intro acc r h hr
    simp only [List.foldlM_nil, pure, Except.pure, Except.ok.injEq] at h
    subst h
    exact Or.inl hr
  | cons e l ih =>
    intro acc r h hr
    rw [foldlM_writeStep_cons] at h
    cases hw : w e with
    | error err => rw [hw] at h; cases h
    | ok o =>
      rw [hw] at h
      rcases ih _ _ h hr with h1 | ⟨e2, he2, hk, hv⟩
      · cases o with
        | none => exact Or.inl h1
        | some x =>
          by_cases hk : k = e.1
          · subst hk
            rw [applyWrite, lookup_setProp_self] at h1
            cases h1
            exact Or.inr ⟨e, List.mem_cons_self _ _, rfl, hw⟩
          · rw [applyWrite, lookup_setProp_ne hk] at h1
            exact Or.inl h1
      · exact Or.inr ⟨e2, List.mem_cons_of_mem _ he2, hk, hv⟩

/-- When every entry for a key writes the same value, the result holds it. -/
theorem writeStep_lookup_written (w : String × Attr → Except JsError (Option JsVal))
    (k : String) (v : JsVal) (l : List (String × Attr))
    (hall : ∀ e ∈ l, e.1 = k → w e = .ok (some v)) :
    ∀ (acc r : Props), l.foldlM (writeStep w) acc = .ok r →
      (acc.lookup k = some v ∨ ∃ e ∈ l, e.1 = k) → r.lookup k = some v := by
  induction l with
  | nil =>
    intro acc r h hk
    simp only [List.foldlM_nil, pure, Except.pure, Except.ok.injEq] at h
    subst h
    rcases hk with hk | ⟨e, he, _⟩
    · exact hk
    · cases he
  | cons e l ih =>
    intro acc r h hk
    rw [foldlM_writeStep_cons] at h
    cases hw : w e with
    | error err => rw [hw] at h; cases h
    | ok o =>
      rw [hw] at h
      refine ih (fun e2 he2 => hall e2 (List.mem_cons_of_mem _ he2)) _ _ h ?_
      by_cases hek : e.1 = k
      · have := hall e (List.mem_cons_self _ _) hek
        rw [hw] at this
        cases this
        left
        rw [applyWrite, hek, lookup_setProp_self]
      · have hacc : (applyWrite e.1 acc o).lookup k = acc.lookup k := by
          cases o with
          | none => rfl
          | some x => exact lookup_setProp_ne (fun h => hek h.symm) _ _
        rcases hk with hk | ⟨e2, he2, hk2⟩
        · left; rw [hacc]; exact hk
        · rcases List.mem_cons.1 he2 with rfl | he2
          · exact absurd hk2 hek
          · exact Or.inr ⟨e2, he2, hk2⟩

/-- A key no entry writes keeps the property of the initial object. -/
theorem writeStep_lookup_untouched (w : String × Attr → Except JsError (Option JsVal))
    (k : String) (l : List (String × Attr))
    (hall : ∀ e ∈ l, e.1 = k → w e = .ok none) :
    ∀ (acc r : Props), l.foldlM (writeStep w) acc = .ok r → r.lookup k = acc.lookup k := by
  induction l with
  | nil =>
    intro acc r h
    simp only [List.foldlM_nil, pure, Except.pure, Except.ok.injEq] at h
    subst h
    rfl
  | cons e l ih =>
    intro acc r h
    rw [foldlM_writeStep_cons] at h
    cases hw : w e with
    | error err => rw [hw] at h; cases h
    | ok o =>
      rw [hw] at h
      rw [ih (fun e2 he2 => hall e2 (List.mem_cons_of_mem _ he2)) _ _ h]
      cases o with
      | none => rfl
      | some x =>
        by_cases hek : e.1 = k
        · have := hall e (List.mem_cons_self _ _) hek
          rw [hw] at this
          cases this
        · exact lookup_setProp_ne (fun h => hek h.symm) _ _

/-- The reduction returns when every step does. -/
theorem writeStep_ok (w : String × Attr → Except JsError (Option JsVal))
    (l : List (String × Attr)) (hall : ∀ e ∈ l, ∃ o, w e = .ok o) :
    ∀ acc : Props, ∃ r, l.foldlM (writeStep w) acc = .ok r := by
  induction l with
  | nil => intro acc; exact ⟨acc, rfl⟩
  | cons e l ih =>
    intro acc
    obtain ⟨o, ho⟩ := hall e (List.mem_cons_self _ _)
    rw [foldlM_writeStep_cons, ho]
    exact ih (fun e2 he2 => hall e2 (List.mem_cons_of_mem _ he2)) _

/-- The reduction throws what the first failing step throws. -/
theorem writeStep_error (w : String × Attr → Except JsError (Option JsVal))
    (pre post : List (String × Attr)) (e : String × Attr) (err : JsError)
    (hpre : ∀ e2 ∈ pre, ∃ o, w e2 = .ok o) (he : w e = .error err) :
    ∀ acc : Props, (pre ++ e :: post).foldlM (writeStep w) acc = .error err := by
  induction pre with
  | nil =>
    intro acc
    rw [List.nil_append, foldlM_writeStep_cons, he]
  | cons p pre ih =>
    intro acc
    obtain ⟨o, ho⟩ := hpre p (List.mem_cons_self _ _)
    rw [List.cons_append, foldlM_writeStep_cons, ho]
    exact ih (fun e2 he2 => hpre e2 (List.mem_cons_of_mem _ he2)) _

theorem serializeItemStep_eq (item : JsVal) (options : Options) (result : Props)
    (entry : String × Attr) :
    serializer.serializeItemStep item options result entry =
      writeStep (serializeItemWrite item options) result entry := by
  unfold serializer.serializeItemStep writeStep serializeItemWrite
  by_cases hhas : item.has entry.1 = true
  · simp only [hhas, if_true]
    cases item.getProp entry.1 with
    | error err => rfl
    | ok value =>
      cases hs : internals.serializeAttribute value (some entry.2) options with
      | error err => simp [bind, Except.bind, hs]
      | ok val =>
        simp only [bind, Except.bind, hs]
        by_cases hc : (!val.isNull || options.returnNulls) = true
        · by_cases hx : options.expected = true
          · simp [hc, hx, applyWrite, pure, Except.pure]
          · simp [hc, hx, applyWrite, pure, Except.pure]
        · simp [hc, applyWrite, pure, Except.pure]
  · simp [hhas, applyWrite, pure, Except.pure]

theorem serializeItem_obj (schema : Schema) (record : Props) (options : Options) :
    serializer.serializeItem schema (.obj record) options =
      match schema.attrs.foldlM (writeStep (serializeItemWrite (.obj record) options)) [] with
      | .ok r => .ok (.obj r)
      | .error err => .error err := by
  have hstep : serializer.serializeItemStep (.obj record) options =
      writeStep (serializeItemWrite (.obj record) options) := by
    funext result entry
    exact serializeItemStep_eq _ _ _ _
  unfold serializer.serializeItem
  rw [hstep]
  simp only [JsVal.truthy, Bool.not_true, Bool.false_eq_true, if_false]
  cases schema.attrs.foldlM (writeStep (serializeItemWrite (.obj record) options)) [] <;> rfl

theorem deserializeItemStep_eq (item : JsVal) (result : Props) (entry : String × Attr) :
    serializer.deserializeItemStep item result entry =
      writeStep (deserializeItemWrite item) result entry := by
  unfold serializer.deserializeItemStep writeStep deserializeItemWrite
  cases item.getProp entry.1 with
  | error err => rfl
  | ok value =>
    cases hs : internals.deserializeAttribute value (some entry.2) with
    | error err => simp [bind, Except.bind, hs]
    | ok val => simp [bind, Except.bind, hs, applyWrite, pure, Except.pure]

theorem deserializeItem_obj (schema : Schema) (wire : Props) :
    serializer.deserializeItem schema (.obj wire) =
      match schema.attrs.foldlM (writeStep (deserializeItemWrite (.obj wire))) [] with
      | .ok r => .ok (.obj r)
      | .error err => .error err := by
  have hstep : serializer.deserializeItemStep (.obj wire) =
      writeStep (deserializeItemWrite (.obj wire)) := by
    funext result entry
    exact deserializeItemStep_eq _ _ _
  unfold serializer.deserializeItem
  rw [hstep]
  simp only [JsVal.truthy, Bool.not_true, Bool.false_eq_true, if_false]
  cases schema.attrs.foldlM (writeStep (deserializeItemWrite (.obj wire))) [] <;> rfl

theorem serializeItemForUpdateStep_eq (schema : Schema) (action item : JsVal)
    (result : Props) (entry : String × Attr) :
    serializer.serializeItemForUpdateStep schema action item result entry =
      writeStep (updateWrite schema action item) result entry := by
  unfold serializer.serializeItemForUpdateStep writeStep updateWrite
  by_cases hc : item.has entry.1 = true ∧ entry.1 ≠ schema.hashKey ∧
      schema.rangeKey ≠ some entry.1
  · rw [if_pos hc, if_pos hc]
    cases item.getProp entry.1 with
    | error err => rfl
    | ok value =>
      simp only [bind, Except.bind]
      by_cases hn : value.isNull = true
      · simp [hn, applyWrite, pure, Except.pure]
      · simp only [hn, Bool.false_eq_true, if_false]
        cases directive value "$add" with
        | some add =>
          simp only []
          cases internals.serializeAttribute add (some entry.2) noOptions <;>
            simp [applyWrite, pure, Except.pure]
        | none =>
          simp only []
          cases directive value "$del" with
          | some del =>
            simp only []
            cases internals.serializeAttribute del (some entry.2) noOptions <;>
              simp [applyWrite, pure, Except.pure]
          | none =>
            simp only []
            cases internals.serializeAttribute value (some entry.2) noOptions <;>
              simp [applyWrite, pure, Except.pure]
  · rw [if_neg hc, if_neg hc]
    rfl

theorem serializeItemForUpdate_eq (schema : Schema) (action item : JsVal) :
    serializer.serializeItemForUpdate schema action item =
      match schema.attrs.foldlM (writeStep (updateWrite schema action item)) [] with
      | .ok r => .ok (.obj r)
      | .error err => .error err := by
  have hstep : serializer.serializeItemForUpdateStep schema action item =
      writeStep (updateWrite schema action item) := by
    funext result entry
    exact serializeItemForUpdateStep_eq _ _ _ _ _
  unfold serializer.serializeItemForUpdate
  rw [hstep]
  cases schema.attrs.foldlM (writeStep (updateWrite schema action item)) [] <;> rfl

/-! ## Round trips -/

theorem deserializeAttribute_string_wire (s : String) (hs : s ≠ "") :
    internals.deserializeAttribute (.obj [("S", .str s)]) (some ⟨⟨"String"⟩⟩) =
      .ok (.str s) := by
  simp [internals.deserializeAttribute, deserializer.string, JsVal.truthy, JsVal.getProp,
    List.lookup, hs, bind, Except.bind, pure, Except.pure]

theorem deserializeAttribute_number_wire (i : Int) :
    internals.deserializeAttribute (.obj [("N", .str (toString i))]) (some ⟨⟨"Number"⟩⟩) =
      .ok (.num (.int i)) := by
  simp [internals.deserializeAttribute, deserializer.number, JsVal.truthy, JsVal.getProp,
    List.lookup, toString_int_ne_empty, bind, Except.bind, pure, Except.pure, JsVal.toNumber,
    stringToNumber_toString]

/-- C1. Record round trip: for a schema whose attributes are all String- or
Number-typed and a record that gives each schema attribute, and no other, a
non-empty text resp. an integer, `serializeItem` returns a wire record,
`deserializeItem` returns a record from it, and that record has the
properties of the original one. -/
theorem record_round_trip (schema : Schema) (record : Props)
    (hvalues : ∀ e ∈ schema.attrs,
      (e.2.type.type = "String" ∧ ∃ s, s ≠ "" ∧ record.lookup e.1 = some (.str s)) ∨
      (e.2.type.type = "Number" ∧ ∃ i, record.lookup e.1 = some (.num (.int i))))
    (honly : ∀ k, (record.lookup k).isSome → ∃ e ∈ schema.attrs, e.1 = k) :
    ∃ wire decoded,
      serializer.serializeItem schema (.obj record) noOptions = .ok wire ∧
      serializer.deserializeItem schema wire = .ok (.obj decoded) ∧
      ∀ k, decoded.lookup k = record.lookup k := by
  -- every entry writes the wire value of the record's value for its key
  have hser : ∀ e ∈ schema.attrs, serializeItemWrite (.obj record) noOptions e =
      .ok (some (scalarWire ((record.lookup e.1).getD .undefined))) := by
    intro e he
    obtain ⟨k, a⟩ := e
    obtain ⟨⟨t⟩⟩ := a
    rcases hvalues _ he with ⟨ht, s, _, hl⟩ | ⟨ht, i, hl⟩
    · simp only at ht hl
      subst ht
      simp [serializeItemWrite, JsVal.has, JsVal.getProp, hl, internals.serializeAttribute,
        JsVal.isNull, serialize.string, noOptions, scalarWire, pure, Except.pure]
    · simp only at ht hl
      subst ht
      simp [serializeItemWrite, JsVal.has, JsVal.getProp, hl, internals.serializeAttribute,
        JsVal.isNull, serialize.number, JsVal.toStringMethod, JsVal.toStr, JsNum.toStr,
        noOptions, scalarWire, pure, Except.pure, bind, Except.bind]
  obtain ⟨wire, hwire⟩ := writeStep_ok _ schema.attrs (fun e he => ⟨_, hser e he⟩) []
  have hwl : ∀ e ∈ schema.attrs,
      wire.lookup e.1 = some (scalarWire ((record.lookup e.1).getD .undefined)) := by
    intro e he
    refine writeStep_lookup_written _ e.1 _ schema.attrs ?_ _ _ hwire (Or.inr ⟨e, he, rfl⟩)
    intro e2 he2 hk
    rw [hser e2 he2, hk]
  -- every entry decodes the wire value back to the record's value
  have hdes : ∀ e ∈ schema.attrs, deserializeItemWrite (.obj wire) e =
      .ok (some ((record.lookup e.1).getD .undefined)) := by
    intro e he
    have hw := hwl e he
    obtain ⟨k, a⟩ := e
    obtain ⟨⟨t⟩⟩ := a
    rcases hvalues _ he with ⟨ht, s, hs, hl⟩ | ⟨ht, i, hl⟩
    · simp only at ht hl hw
      subst ht
      simp only [deserializeItemWrite, JsVal.getProp, hw, hl, Option.getD_some, scalarWire,
        deserializeAttribute_string_wire s hs]
    · simp only at ht hl hw
      subst ht
      simp only [deserializeItemWrite, JsVal.getProp, hw, hl, Option.getD_some, scalarWire,
        deserializeAttribute_number_wire i]
  obtain ⟨decoded, hdecoded⟩ := writeStep_ok _ schema.attrs (fun e he => ⟨_, hdes e he⟩) []
  refine ⟨.obj wire, decoded, ?_, ?_, ?_⟩
  · rw [serializeItem_obj, hwire]
  · rw [deserializeItem_obj, hdecoded]
  · intro k
    by_cases hk : ∃ e ∈ schema.attrs, e.1 = k
    · obtain ⟨e, he, rfl⟩ := hk
      have hsome : ∃ v, record.lookup e.1 = some v := by
        rcases hvalues _ he with ⟨_, s, _, hl⟩ | ⟨_, i, hl⟩
        · exact ⟨_, hl⟩
        · exact ⟨_, hl⟩
      obtain ⟨v, hv⟩ := hsome
      rw [hv]
      refine writeStep_lookup_written _ e.1 _ schema.attrs ?_ _ _ hdecoded
        (Or.inr ⟨e, he, rfl⟩)
      intro e2 he2 hk2
      rw [hdes e2 he2, hk2, hv]
      rfl
    · have hnone : record.lookup k = none := by
        cases hl : record.lookup k with
        | none => rfl
        | some v => exact absurd (honly k (by rw [hl]; rfl)) hk
      rw [hnone]
      refine writeStep_lookup_untouched _ k schema.attrs ?_ _ _ hdecoded
      intro e he hek
      exact absurd ⟨e, he, hek⟩ hk

/-- C1, at the schema with attributes `id : String` and `age : Number` and the
record with `id` the text a1 and `age` 30: the wire record and the decoded
record are the ones of the example. -/
theorem record_round_trip_witness :
    serializer.serializeItem ⟨"id", none, [("id", ⟨⟨"String"⟩⟩), ("age", ⟨⟨"Number"⟩⟩)]⟩
        (.obj [("id", .str "a1"), ("age", .num (.int 30))]) noOptions =
      .ok (.obj [("id", .obj [("S", .str "a1")]), ("age", .obj [("N", .str "30")])]) ∧
    serializer.deserializeItem ⟨"id", none, [("id", ⟨⟨"String"⟩⟩), ("age", ⟨⟨"Number"⟩⟩)]⟩
        (.obj [("id", .obj [("S", .str "a1")]), ("age", .obj [("N", .str "30")])]) =
      .ok (.obj [("id", .str "a1"), ("age", .num (.int 30))]) ∧
    ∃ wire decoded,
      serializer.serializeItem ⟨"id", none, [("id", ⟨⟨"String"⟩⟩), ("age", ⟨⟨"Number"⟩⟩)]⟩
        (.obj [("id", .str "a1"), ("age", .num (.int 30))]) noOptions = .ok wire ∧
      serializer.deserializeItem ⟨"id", none, [("id", ⟨⟨"String"⟩⟩), ("age", ⟨⟨"Number"⟩⟩)]⟩
        wire = .ok (.obj decoded) ∧
      ∀ k, decoded.lookup k = [("id", JsVal.str "a1"), ("age", .num (.int 30))].lookup k :=
  ⟨by decide, by decide,
    record_round_trip ⟨"id", none, [("id", ⟨⟨"String"⟩⟩), ("age", ⟨⟨"Number"⟩⟩)]⟩
      [("id", .str "a1"), ("age", .num (.int 30))]
      (by
        intro e he
        simp only [List.mem_cons, List.mem_singleton, List.not_mem_nil, or_false] at he
        rcases he with rfl | rfl
        · exact Or.inl ⟨rfl, "a1", by decide, rfl⟩
        · exact Or.inr ⟨rfl, 30, rfl⟩)
      (by
        intro k hk
        by_cases h1 : k = "id"
        · exact ⟨("id", ⟨⟨"String"⟩⟩), by simp, h1.symm⟩
        · by_cases h2 : k = "age"
          · exact ⟨("age", ⟨⟨"Number"⟩⟩), by simp, h2.symm⟩
          · have e1 : (k == "id") = false := by simpa using h1
            have e2 : (k == "age") = false := by simpa using h2
            simp [List.lookup, e1, e2] at hk)⟩

/-- C2, as stated, fails at the empty text: a String attribute encodes it
under the tag S, and decoding that wire value gives `null`, not the text. -/
theorem string_round_trip_empty_counterexample :
    internals.serializeAttribute (.str "") (some ⟨⟨"String"⟩⟩) noOptions =
      .ok (.obj [("S", .str "")]) ∧
    internals.deserializeAttribute (.obj [("S", .str "")]) (some ⟨⟨"String"⟩⟩) = .ok .null ∧
    (Except.ok .null : Except JsError JsVal) ≠ .ok (.str "") := by
  decide

/-- C2, amended. String round trip: for every non-empty text and every
attribute descriptor with tag String, UUID or TimeUUID, `serializeAttribute`
returns a wire value, under any options, and `deserializeAttribute` returns
the text from it. -/
theorem string_round_trip (s : String) (attr : Attr) (options : Options) (hs : s ≠ "")
    (htag : attr.type.type = "String" ∨ attr.type.type = "UUID" ∨
      attr.type.type = "TimeUUID") :
    ∃ wire, internals.serializeAttribute (.str s) (some attr) options = .ok wire ∧
      internals.deserializeAttribute wire (some attr) = .ok (.str s) := by
  refine ⟨.obj [("S", .str s)], ?_, ?_⟩
  · simp [internals.serializeAttribute, JsVal.isNull, htag, serialize.string, pure,
      Except.pure]
  · simp [internals.deserializeAttribute, htag, deserializer.string, JsVal.truthy,
      JsVal.getProp, List.lookup, hs, bind, Except.bind, pure, Except.pure]

/-- C2, amended, at the text a1 and a UUID attribute. -/
theorem string_round_trip_witness :
    ∃ wire, internals.serializeAttribute (.str "a1") (some ⟨⟨"UUID"⟩⟩) noOptions = .ok wire ∧
      internals.deserializeAttribute wire (some ⟨⟨"UUID"⟩⟩) = .ok (.str "a1") :=
  string_round_trip "a1" ⟨⟨"UUID"⟩⟩ noOptions (by decide) (Or.inr (Or.inl rfl))

theorem serializeItemForUpdate_ok_iff (schema : Schema) (action item r : JsVal) :
    serializer.serializeItemForUpdate schema action item = .ok r ↔
      ∃ props, r = .obj props ∧
        schema.attrs.foldlM (writeStep (updateWrite schema action item)) [] = .ok props := by
  rw [serializeItemForUpdate_eq]
  cases schema.attrs.foldlM (writeStep (updateWrite schema action item)) [] with
  | error err => simp
  | ok props =>
    simp only [Except.ok.injEq]
    constructor
    · intro h; exact ⟨props, h.symm, rfl⟩
    · rintro ⟨p, rfl, hp⟩; rw [hp]

/-- C4. Whatever the schema, the default action and the record, a result of
`serializeItemForUpdate` is an object with no entry for `schema.hashKey` and
none for `schema.rangeKey`. -/
theorem update_excludes_keys (schema : Schema) (action item r : JsVal)
    (h : serializer.serializeItemForUpdate schema action item = .ok r) :
    ∃ props, r = .obj props ∧ props.lookup schema.hashKey = none ∧
      ∀ rk, schema.rangeKey = some rk → props.lookup rk = none := by
  obtain ⟨props, rfl, hfold⟩ := (serializeItemForUpdate_ok_iff _ _ _ _).1 h
  refine ⟨props, rfl, ?_, ?_⟩
  · refine writeStep_lookup_untouched _ schema.hashKey schema.attrs ?_ _ _ hfold
    intro e _ hk
    simp [updateWrite, hk]
  · intro rk hrk
    refine writeStep_lookup_untouched _ rk schema.attrs ?_ _ _ hfold
    intro e _ hk
    simp [updateWrite, hk, hrk]

/-- C4, at a schema with hash key `id` and range key `ts` and a record that
holds values for both: the update has an entry for `name` only. -/
theorem update_excludes_keys_witness :
    serializer.serializeItemForUpdate
        ⟨"id", some "ts", [("id", ⟨⟨"String"⟩⟩), ("ts", ⟨⟨"Number"⟩⟩), ("name", ⟨⟨"String"⟩⟩)]⟩
        (.str "PUT") (.obj [("id", .str "a"), ("ts", .num (.int 5)), ("name", .str "x")]) =
      .ok (.obj [("name", .obj [("Action", .str "PUT"), ("Value", .obj [("S", .str "x")])])]) ∧
    ∃ props,
      JsVal.obj [("name", .obj [("Action", .str "PUT"), ("Value", .obj [("S", .str "x")])])] =
        .obj props ∧
      props.lookup "id" = none ∧ ∀ rk, some "ts" = some rk → props.lookup rk = none :=
  ⟨by decide,
    update_excludes_keys
      ⟨"id", some "ts", [("id", ⟨⟨"String"⟩⟩), ("ts", ⟨⟨"Number"⟩⟩), ("name", ⟨⟨"String"⟩⟩)]⟩
      (.str "PUT") (.obj [("id", .str "a"), ("ts", .num (.int 5)), ("name", .str "x")])
      (.obj [("name", .obj [("Action", .str "PUT"), ("Value", .obj [("S", .str "x")])])])
      (by decide)⟩

/-- C5 at the directive `$add` of 0 on a Number attribute: the code emits the
default action with the text of the directive object as the number, where the
claim has the action ADD with the encoding of 0. The directive `$add` of 5
gives the action ADD with the encoding of 5. -/
theorem update_add_zero_default_action :
    serializer.serializeItemForUpdate ⟨"id", none, [("id", ⟨⟨"String"⟩⟩), ("age", ⟨⟨"Number"⟩⟩)]⟩
        (.str "PUT") (.obj [("id", .str "a1"), ("age", .obj [("$add", .num (.int 0))])]) =
      .ok (.obj [("age", .obj [("Action", .str "PUT"),
        ("Value", .obj [("N", .str "[object Object]")])])]) ∧
    internals.serializeAttribute (.num (.int 0)) (some ⟨⟨"Number"⟩⟩) noOptions =
      .ok (.obj [("N", .str "0")]) ∧
    serializer.serializeItemForUpdate ⟨"id", none, [("id", ⟨⟨"String"⟩⟩), ("age", ⟨⟨"Number"⟩⟩)]⟩
        (.str "PUT") (.obj [("id", .str "a1"), ("age", .obj [("$add", .num (.int 5))])]) =
      .ok (.obj [("age", .obj [("Action", .str "ADD"), ("Value", .obj [("N", .str "5")])])]) := by
  decide

/-- C6. For a non-key attribute `k` declared in the schema and a record value
of literal `null` for it, whatever the type tag and the default action: the
reduce step of `k` returns and writes exactly the object with the one field
`Action` of value DELETE; every result of `serializeItemForUpdate` holds that
object for `k`; and the call returns when the steps of the other attributes
do. -/
theorem update_null_deletes (schema : Schema) (action : JsVal) (record : Props)
    (k : String) (attr : Attr) (hk : (k, attr) ∈ schema.attrs)
    (hhash : k ≠ schema.hashKey) (hrange : schema.rangeKey ≠ some k)
    (hnull : record.lookup k = some .null) :
    (∀ acc, serializer.serializeItemForUpdateStep schema action (.obj record) acc (k, attr) =
      .ok (setProp k (.obj [("Action", .str "DELETE")]) acc)) ∧
    (∀ r, serializer.serializeItemForUpdate schema action (.obj record) = .ok r →
      ∃ props, r = .obj props ∧ props.lookup k = some (.obj [("Action", .str "DELETE")])) ∧
    ((∀ e ∈ schema.attrs, e.1 ≠ k → ∀ acc, ∃ acc2,
        serializer.serializeItemForUpdateStep schema action (.obj record) acc e = .ok acc2) →
      ∃ r, serializer.serializeItemForUpdate schema action (.obj record) = .ok r) := by
  have hw : ∀ e ∈ schema.attrs, e.1 = k → updateWrite schema action (.obj record) e =
      .ok (some (.obj [("Action", .str "DELETE")])) := by
    intro e _ hek
    simp [updateWrite, hek, JsVal.has, JsVal.getProp, hnull, hhash, hrange, JsVal.isNull]
  refine ⟨?_, ?_, ?_⟩
  · intro acc
    rw [serializeItemForUpdateStep_eq, writeStep, hw _ hk rfl]
    rfl
  · intro r h
    obtain ⟨props, rfl, hfold⟩ := (serializeItemForUpdate_ok_iff _ _ _ _).1 h
    exact ⟨props, rfl,
      writeStep_lookup_written _ k _ schema.attrs hw _ _ hfold (Or.inr ⟨_, hk, rfl⟩)⟩
  · intro hothers
    have hall : ∀ e ∈ schema.attrs, ∃ o, updateWrite schema action (.obj record) e = .ok o := by
      intro e he
      by_cases hek : e.1 = k
      · exact ⟨_, hw e he hek⟩
      · obtain ⟨acc2, h2⟩ := hothers e he hek []
        rw [serializeItemForUpdateStep_eq, writeStep] at h2
        cases hwe : updateWrite schema action (.obj record) e with
        | ok o => exact ⟨o, rfl⟩
        | error err => rw [hwe] at h2; cases h2
    obtain ⟨props, hprops⟩ := writeStep_ok _ schema.attrs hall []
    exact ⟨.obj props, (serializeItemForUpdate_ok_iff _ _ _ _).2 ⟨props, rfl, hprops⟩⟩

/-- C6, at an attribute `nick` whose type tag is outside the closed set and
a record that holds `null` for it. -/
theorem update_null_deletes_witness :
    serializer.serializeItemForUpdate ⟨"id", none, [("id", ⟨⟨"String"⟩⟩), ("nick", ⟨⟨"Blob"⟩⟩)]⟩
        (.str "PUT") (.obj [("id", .str "a1"), ("nick", .null)]) =
      .ok (.obj [("nick", .obj [("Action", .str "DELETE")])]) ∧
    ∀ r, serializer.serializeItemForUpdate
        ⟨"id", none, [("id", ⟨⟨"String"⟩⟩), ("nick", ⟨⟨"Blob"⟩⟩)]⟩
        (.str "PUT") (.obj [("id", .str "a1"), ("nick", .null)]) = .ok r →
      ∃ props, r = .obj props ∧ props.lookup "nick" = some (.obj [("Action", .str "DELETE")]) :=
  ⟨by decide,
    (update_null_deletes ⟨"id", none, [("id", ⟨⟨"String"⟩⟩), ("nick", ⟨⟨"Blob"⟩⟩)]⟩
      (.str "PUT") [("id", .str "a1"), ("nick", .null)] "nick" ⟨⟨"Blob"⟩⟩
      (by simp) (by decide) (by decide) (by decide)).2.1⟩

/-! ## `serializeItem`: keys, nulls and the `expected` wrapping -/

theorem serializeItem_ok_iff (schema : Schema) (record : Props) (options : Options)
    (r : JsVal) :
    serializer.serializeItem schema (.obj record) options = .ok r ↔
      ∃ props, r = .obj props ∧
        schema.attrs.foldlM (writeStep (serializeItemWrite (.obj record) options)) [] =
          .ok props := by
  rw [serializeItem_obj]
  cases schema.attrs.foldlM (writeStep (serializeItemWrite (.obj record) options)) [] with
  | error err => simp
  | ok props =>
    simp only [Except.ok.injEq]
    constructor
    · intro h; exact ⟨props, h.symm, rfl⟩
    · rintro ⟨p, rfl, hp⟩; rw [hp]

theorem serializeItemWrite_null (record : Props) (options : Options) (e : String × Attr)
    (hnull : record.lookup e.1 = some .null) :
    serializeItemWrite (.obj record) options e =
      if options.returnNulls then
        .ok (some (if options.expected then .obj [("Value", .null)] else .null))
      else .ok none := by
  simp [serializeItemWrite, JsVal.has, JsVal.getProp, hnull, internals.serializeAttribute,
    JsVal.isNull, pure, Except.pure]

/-- C7. A result of `serializeItem` on a record is an object each of whose
keys is declared in `schema.attrs` and present in the record; an attribute
declared in the schema whose record value is `null` has no entry in it when
`returnNulls` is not set, and has one when `returnNulls` is set. -/
theorem serializeItem_keys_and_nulls (schema : Schema) (record : Props) (options : Options)
    (r : JsVal) (h : serializer.serializeItem schema (.obj record) options = .ok r) :
    ∃ props, r = .obj props ∧
      (∀ k, (props.lookup k).isSome →
        (∃ e ∈ schema.attrs, e.1 = k) ∧ (record.lookup k).isSome) ∧
      (∀ e ∈ schema.attrs, record.lookup e.1 = some .null →
        (options.returnNulls = false → props.lookup e.1 = none) ∧
        (options.returnNulls = true → (props.lookup e.1).isSome)) := by
  obtain ⟨props, rfl, hfold⟩ := (serializeItem_ok_iff _ _ _ _).1 h
  refine ⟨props, rfl, ?_, ?_⟩
  · intro k hsome
    obtain ⟨v, hv⟩ := Option.isSome_iff_exists.1 hsome
    rcases writeStep_lookup_origin _ k v schema.attrs _ _ hfold hv with h0 | ⟨e, he, hk, hw⟩
    · simp [List.lookup] at h0
    · refine ⟨⟨e, he, hk⟩, ?_⟩
      by_cases hhas : (JsVal.obj record).has e.1 = true
      · rw [← hk]
        simpa [JsVal.has] using hhas
      · simp [serializeItemWrite, hhas] at hw
  · intro e he hnull
    constructor
    · intro hrn
      refine writeStep_lookup_untouched _ e.1 schema.attrs ?_ _ _ hfold
      intro e2 _ hk
      rw [serializeItemWrite_null record options e2 (by rw [hk]; exact hnull)]
      simp [hrn]
    · intro hrn
      have hl := writeStep_lookup_written _ e.1
        (if options.expected then .obj [("Value", .null)] else .null) schema.attrs
        (by
          intro e2 _ hk
          rw [serializeItemWrite_null record options e2 (by rw [hk]; exact hnull)]
          simp [hrn])
        _ _ hfold (Or.inr ⟨e, he, rfl⟩)
      rw [hl]
      rfl

/-- C7, at a record with a `null` value, an undeclared attribute and
`returnNulls` set; without `returnNulls` the `null` attribute has no entry. -/
theorem serializeItem_keys_and_nulls_witness :
    serializer.serializeItem ⟨"id", none, [("id", ⟨⟨"String"⟩⟩), ("age", ⟨⟨"Number"⟩⟩)]⟩
        (.obj [("id", .str "a1"), ("age", .null), ("extra", .str "x")]) noOptions =
      .ok (.obj [("id", .obj [("S", .str "a1")])]) ∧
    serializer.serializeItem ⟨"id", none, [("id", ⟨⟨"String"⟩⟩), ("age", ⟨⟨"Number"⟩⟩)]⟩
        (.obj [("id", .str "a1"), ("age", .null), ("extra", .str "x")]) ⟨false, true, false⟩ =
      .ok (.obj [("id", .obj [("S", .str "a1")]), ("age", .null)]) ∧
    ∃ props, JsVal.obj [("id", .obj [("S", .str "a1")]), ("age", .null)] = .obj props ∧
      (∀ k, (props.lookup k).isSome →
        (∃ e ∈ [("id", (⟨⟨"String"⟩⟩ : Attr)), ("age", ⟨⟨"Number"⟩⟩)], e.1 = k) ∧
        (List.lookup k [("id", JsVal.str "a1"), ("age", .null), ("extra", .str "x")]).isSome) ∧
      (∀ e ∈ [("id", (⟨⟨"String"⟩⟩ : Attr)), ("age", ⟨⟨"Number"⟩⟩)],
        List.lookup e.1 [("id", JsVal.str "a1"), ("age", .null), ("extra", .str "x")] =
          some .null →
        (true = false → props.lookup e.1 = none) ∧
        (true = true → (props.lookup e.1).isSome)) :=
  ⟨by decide, by decide,
    serializeItem_keys_and_nulls ⟨"id", none, [("id", ⟨⟨"String"⟩⟩), ("age", ⟨⟨"Number"⟩⟩)]⟩
      [("id", .str "a1"), ("age", .null), ("extra", .str "x")] ⟨false, true, false⟩
      (.obj [("id", .obj [("S", .str "a1")]), ("age", .null)]) (by decide)⟩

theorem map_setProp_wrap (k : String) (v : JsVal) (acc : Props) :
    (setProp k v acc).map (fun kv => (kv.1, JsVal.obj [("Value", kv.2)])) =
      setProp k (.obj [("Value", v)])
        (acc.map fun kv => (kv.1, JsVal.obj [("Value", kv.2)])) := by
  induction acc with
  | nil => rfl
  | cons p rest ih =>
    obtain ⟨k2, v2⟩ := p
    by_cases hk : k2 = k
    · simp [setProp, hk]
    · simp [setProp, hk, ih]

theorem serializeItemWrite_expected (item : JsVal) (cs rn : Bool) (e : String × Attr) :
    serializeItemWrite item ⟨cs, rn, true⟩ e =
      match serializeItemWrite item ⟨cs, rn, false⟩ e with
      | .ok o => .ok (o.map fun w => .obj [("Value", w)])
      | .error err => .error err := by
  unfold serializeItemWrite
  by_cases hhas : item.has e.1 = true
  · simp only [hhas, if_true]
    cases item.getProp e.1 with
    | error err => rfl
    | ok value =>
      simp only []
      have hsame : internals.serializeAttribute value (some e.2) ⟨cs, rn, true⟩ =
          internals.serializeAttribute value (some e.2) ⟨cs, rn, false⟩ := rfl
      rw [hsame]
      cases internals.serializeAttribute value (some e.2) ⟨cs, rn, false⟩ with
      | error err => rfl
      | ok val =>
        simp only []
        by_cases hc : (!val.isNull || rn) = true
        · simp [hc]
        · simp [hc]
  · simp [hhas]

theorem foldlM_expected (item : JsVal) (cs rn : Bool) (l : List (String × Attr)) :
    ∀ acc : Props,
      l.foldlM (writeStep (serializeItemWrite item ⟨cs, rn, true⟩))
          (acc.map fun kv => (kv.1, JsVal.obj [("Value", kv.2)])) =
        match l.foldlM (writeStep (serializeItemWrite item ⟨cs, rn, false⟩)) acc with
        | .ok r => .ok (r.map fun kv => (kv.1, JsVal.obj [("Value", kv.2)]))
        | .error err => .error err := by
  induction l with
  | nil => intro acc; rfl
  | cons e l ih =>
    intro acc
    rw [foldlM_writeStep_cons, foldlM_writeStep_cons, serializeItemWrite_expected]
    cases serializeItemWrite item ⟨cs, rn, false⟩ e with
    | error err => rfl
    | ok o =>
      cases o with
      | none => exact ih acc
      | some w =>
        simp only [Option.map, applyWrite]
        rw [← map_setProp_wrap]
        exact ih _

/-- C8. For every schema and record, and whatever `convertSets` and
`returnNulls` are, `serializeItem` with `expected` set returns the result of
`serializeItem` without it with every wire value `w` replaced by the object
whose one field `Value` holds `w`, key for key and in the same order, and it
throws exactly when the call without `expected` throws, the same error. -/
theorem expected_wraps_values (schema : Schema) (record : Props) (cs rn : Bool) :
    serializer.serializeItem schema (.obj record) ⟨cs, rn, true⟩ =
      match serializer.serializeItem schema (.obj record) ⟨cs, rn, false⟩ with
      | .ok r => .ok (wrapExpected r)
      | .error err => .error err := by
  rw [serializeItem_obj, serializeItem_obj]
  have h := foldlM_expected (.obj record) cs rn schema.attrs []
  simp only [List.map_nil] at h
  rw [h]
  cases schema.attrs.foldlM (writeStep (serializeItemWrite (.obj record) ⟨cs, rn, false⟩)) []
    <;> rfl

/-! ## The `UnsupportedType` error -/

/-- The first failing step decides the error: when the steps before an entry
can only throw errors of one kind and the entry throws one of that kind, the
reduction throws an error of that kind. -/
theorem writeStep_error_first (w : String × Attr → Except JsError (Option JsVal))
    (P : JsError → Prop) (pre post : List (String × Attr)) (e : String × Attr)
    (err0 : JsError) (he : w e = .error err0) (h0 : P err0)
    (hpre : ∀ e2 ∈ pre, ∀ err, w e2 = .error err → P err) :
    ∀ acc : Props, ∃ err, (pre ++ e :: post).foldlM (writeStep w) acc = .error err ∧ P err := by
  induction pre with
  | nil =>
    intro acc
    exact ⟨err0, by rw [List.nil_append, foldlM_writeStep_cons, he], h0⟩
  | cons p pre ih =>
    intro acc
    rw [List.cons_append, foldlM_writeStep_cons]
    cases hp : w p with
    | error err => exact ⟨err, rfl, hpre p (List.mem_cons_self _ _) err hp⟩
    | ok o => exact ih (fun e2 he2 => hpre e2 (List.mem_cons_of_mem _ he2)) _

theorem toStringMethod_error (v : JsVal) (err : JsError)
    (h : v.toStringMethod = .error err) : err = .typeError := by
  cases v <;> simp [JsVal.toStringMethod] at h <;> exact h.symm

theorem mapM_toStringMethod_error (xs : List JsVal) (err : JsError)
    (h : xs.mapM (fun v => v.toStringMethod) = .error err) : err = .typeError := by
  induction xs generalizing err with
  | nil => rw [List.mapM_nil] at h; cases h
  | cons x xs ih =>
    rw [List.mapM_cons] at h
    cases hx : x.toStringMethod with
    | error e1 =>
      rw [hx] at h
      simp only [bind, Except.bind, Except.error.injEq] at h
      subst h
      exact toStringMethod_error x _ hx
    | ok t =>
      rw [hx] at h
      cases hxs : xs.mapM (fun v => v.toStringMethod) with
      | error e2 =>
        rw [hxs] at h
        simp only [bind, Except.bind, Except.error.injEq] at h
        subst h
        exact ih _ hxs
      | ok ts =>
        rw [hxs] at h
        simp [bind, Except.bind, pure, Except.pure] at h

theorem serialize_number_error (value : JsVal) (err : JsError)
    (h : serialize.number value = .error err) : err = .typeError := by
  unfold serialize.number at h
  cases hv : value.toStringMethod with
  | error e1 =>
    rw [hv] at h
    simp only [bind, Except.bind, Except.error.injEq] at h
    subst h
    exact toStringMethod_error _ _ hv
  | ok t => rw [hv] at h; cases h

theorem toISOString_bind_error (t : Option Int) (err : JsError)
    (h : (do let text ← toISOString t; pure (JsVal.obj [("S", JsVal.str text)]) :
      Except JsError JsVal) = .error err) : err = .rangeError := by
  cases t with
  | none => simp [toISOString, bind, Except.bind] at h; exact h.symm
  | some t => simp [toISOString, bind, Except.bind, pure, Except.pure] at h

theorem serialize_date_error (value : JsVal) (err : JsError)
    (h : serialize.date value = .error err) : err = .rangeError := by
  cases value <;> exact toISOString_bind_error _ _ h

theorem serialize_stringSet_error (value : JsVal) (err : JsError)
    (h : serialize.stringSet value = .error err) : err = .typeError := by
  have hone : ∀ v : JsVal,
      (v.toStringMethod >>= fun text =>
        (pure (JsVal.obj [("SS", JsVal.arr [JsVal.str text])]) : Except JsError JsVal)) =
          .error err → err = .typeError := by
    intro v hv
    cases ht : v.toStringMethod with
    | error e1 =>
      rw [ht] at hv
      simp only [bind, Except.bind, Except.error.injEq] at hv
      subst hv
      exact toStringMethod_error _ _ ht
    | ok t => rw [ht] at hv; cases hv
  cases value with
  | arr xs =>
    unfold serialize.stringSet at h
    simp only [] at h
    cases hm : xs.mapM (fun v => v.toStringMethod) with
    | error e1 =>
      rw [hm] at h
      simp only [bind, Except.bind, Except.error.injEq] at h
      subst h
      exact mapM_toStringMethod_error _ _ hm
    | ok ts => rw [hm] at h; cases h
  | _ => exact hone _ h

theorem not_supported_iff (t : String) :
    t ∉ supportedTypes ↔
      (¬ (t = "String" ∨ t = "UUID" ∨ t = "TimeUUID") ∧ t ≠ "Number" ∧ t ≠ "Date" ∧
        t ≠ "Boolean" ∧ t ≠ "NumberSet" ∧ t ≠ "StringSet") := by
  simp only [supportedTypes, List.mem_cons, List.mem_singleton, List.not_mem_nil, or_false]
  tauto

/-- A non-null value under an unsupported type tag reaches the default branch
of the type switch. -/
theorem serializeAttribute_unsupported (value : JsVal) (attr : Attr) (options : Options)
    (htag : attr.type.type ∉ supportedTypes) (hnn : value ≠ .null) :
    internals.serializeAttribute value (some attr) options =
      .error (unsupportedType attr.type.type) := by
  obtain ⟨h1, h2, h3, h4, h5, h6⟩ := (not_supported_iff _).1 htag
  have hn : value.isNull = false := by
    cases value <;> simp [JsVal.isNull] at hnn ⊢
  simp only [internals.serializeAttribute, hn, h1, h2, h3, h4, h5, h6, if_false,
    Bool.false_eq_true]
  rfl

/-- The errors of `serializeAttribute`: a `TypeError` or `RangeError` of a
host primitive, or the error of the default branch of the type switch. -/
theorem serializeAttribute_error (value : JsVal) (attr : Attr) (options : Options)
    (err : JsError) (h : internals.serializeAttribute value (some attr) options = .error err) :
    err = .typeError ∨ err = .rangeError ∨
      (attr.type.type ∉ supportedTypes ∧ err = unsupportedType attr.type.type) := by
  unfold internals.serializeAttribute at h
  simp only [] at h
  split at h
  · cases h
  split at h
  · cases h
  split at h
  · exact Or.inl (serialize_number_error _ _ h)
  split at h
  · exact Or.inr (Or.inl (serialize_date_error _ _ h))
  split at h
  · cases h
  split at h
  · split at h
    · exact Or.inl (serialize_number_error _ _ h)
    · cases h
  split at h
  · split at h
    · cases h
    · exact Or.inl (serialize_stringSet_error _ _ h)
  · right; right
    refine ⟨(not_supported_iff _).2 ⟨?_, ?_, ?_, ?_, ?_, ?_⟩, ?_⟩ <;> first
      | assumption
      | (simp only [throw, throwThe, MonadExceptOf.throw, Except.error.injEq] at h
         exact h.symm)

theorem serializeItemWrite_error (record : Props) (options : Options) (e : String × Attr)
    (err : JsError) (h : serializeItemWrite (.obj record) options e = .error err) :
    ∃ x, record.lookup e.1 = some x ∧
      internals.serializeAttribute x (some e.2) options = .error err := by
  unfold serializeItemWrite at h
  cases hl : record.lookup e.1 with
  | none => simp [JsVal.has, hl] at h
  | some x =>
    refine ⟨x, rfl, ?_⟩
    simp only [JsVal.has, hl, Option.isSome_some, if_true, JsVal.getProp, Option.getD_some] at h
    cases hs : internals.serializeAttribute x (some e.2) options with
    | error e1 =>
      rw [hs] at h
      simp only [Except.error.injEq] at h
      rw [h]
    | ok val =>
      rw [hs] at h
      simp only [] at h
      split at h <;> cases h

/-- C9, as stated, fails in two ways: at a `null` value the attribute with the
unsupported tag Blob encodes to `null` and the call returns; and when an
attribute enumerated earlier holds `undefined` under the tag Number, the call
throws the `TypeError` of `undefined.toString()` instead. -/
theorem serializeItem_unsupported_counterexample :
    "Blob" ∉ supportedTypes ∧
    serializer.serializeItem ⟨"id", none, [("id", ⟨⟨"String"⟩⟩), ("data", ⟨⟨"Blob"⟩⟩)]⟩
        (.obj [("id", .str "a1"), ("data", .null)]) noOptions =
      .ok (.obj [("id", .obj [("S", .str "a1")])]) ∧
    serializer.serializeItem ⟨"id", none, [("n", ⟨⟨"Number"⟩⟩), ("data", ⟨⟨"Blob"⟩⟩)]⟩
        (.obj [("n", .undefined), ("data", .str "x")]) noOptions = .error .typeError ∧
    JsError.typeError ≠ unsupportedType "Blob" := by
  decide

/-- C9, amended. When an attribute declared in the schema has a type tag
outside the closed set and the record holds a value other than `null` for
it, `serializeItem` throws; and the error is the `UnsupportedType` one when
no attribute enumerated before it throws a `TypeError` or `RangeError` while
its value is encoded. -/
theorem serializeItem_unsupported_type (schema : Schema) (record : Props) (options : Options)
    (pre post : List (String × Attr)) (k : String) (attr : Attr) (v : JsVal)
    (hattrs : schema.attrs = pre ++ (k, attr) :: post)
    (htag : attr.type.type ∉ supportedTypes)
    (hv : record.lookup k = some v) (hnn : v ≠ .null) :
    (∃ err, serializer.serializeItem schema (.obj record) options = .error err) ∧
    ((∀ e ∈ pre, ∀ x, record.lookup e.1 = some x →
        internals.serializeAttribute x (some e.2) options ≠ .error .typeError ∧
        internals.serializeAttribute x (some e.2) options ≠ .error .rangeError) →
      ∃ tag, tag ∉ supportedTypes ∧
        serializer.serializeItem schema (.obj record) options =
          .error (unsupportedType tag)) := by
  have hw : serializeItemWrite (.obj record) options (k, attr) =
      .error (unsupportedType attr.type.type) := by
    simp [serializeItemWrite, JsVal.has, JsVal.getProp, hv,
      serializeAttribute_unsupported v attr options htag hnn]
  constructor
  · obtain ⟨err, herr, _⟩ := writeStep_error_first _ (fun _ => True) pre post (k, attr) _ hw
      trivial (fun _ _ _ _ => trivial) []
    exact ⟨err, by rw [serializeItem_obj, hattrs, herr]⟩
  · intro hpre
    obtain ⟨err, herr, tag, htag2, rfl⟩ := writeStep_error_first _
      (fun err => ∃ tag, tag ∉ supportedTypes ∧ err = unsupportedType tag)
      pre post (k, attr) _ hw ⟨_, htag, rfl⟩
      (by
        intro e2 he2 err he
        obtain ⟨x, hx, hs⟩ := serializeItemWrite_error record options e2 err he
        rcases serializeAttribute_error x e2.2 options err hs with h1 | h1 | ⟨h1, h2⟩
        · subst h1; exact absurd hs (hpre e2 he2 x hx).1
        · subst h1; exact absurd hs (hpre e2 he2 x hx).2
        · exact ⟨_, h1, h2⟩) []
    exact ⟨tag, htag2, by rw [serializeItem_obj, hattrs, herr]⟩

/-- C9, amended, at a record that holds a text for an attribute with the
unsupported tag Blob. -/
theorem serializeItem_unsupported_type_witness :
    serializer.serializeItem ⟨"id", none, [("id", ⟨⟨"String"⟩⟩), ("data", ⟨⟨"Blob"⟩⟩)]⟩
        (.obj [("id", .str "a1"), ("data", .str "x")]) noOptions =
      .error (unsupportedType "Blob") ∧
    ∃ tag, tag ∉ supportedTypes ∧
      serializer.serializeItem ⟨"id", none, [("id", ⟨⟨"String"⟩⟩), ("data", ⟨⟨"Blob"⟩⟩)]⟩
        (.obj [("id", .str "a1"), ("data", .str "x")]) noOptions =
          .error (unsupportedType tag) :=
  ⟨by decide,
    (serializeItem_unsupported_type
      ⟨"id", none, [("id", ⟨⟨"String"⟩⟩), ("data", ⟨⟨"Blob"⟩⟩)]⟩
      [("id", .str "a1"), ("data", .str "x")] noOptions
      [("id", ⟨⟨"String"⟩⟩)] [] "data" ⟨⟨"Blob"⟩⟩ (.str "x") rfl (by decide) (by decide)
      (by decide)).2
      (by
        intro e he x hx
        simp only [List.mem_singleton] at he
        subst he
        have hx2 : x = .str "a1" := by
          have : List.lookup "id" [("id", JsVal.str "a1"), ("data", .str "x")] =
              some (.str "a1") := by decide
          rw [this] at hx
          exact (Option.some.inj hx).symm
        subst hx2
        exact ⟨by decide, by decide⟩)⟩

/-! ### The decode path -/

theorem getProp_of_truthy (value : JsVal) (key : String) (h : value.truthy = true) :
    ∃ x, value.getProp key = .ok x := by
  cases value <;> simp [JsVal.truthy] at h <;> exact ⟨_, rfl⟩

/-- The decoders return on every truthy wire value. -/
theorem deserializer_ok (value : JsVal) (h : value.truthy = true) :
    (∃ r, deserializer.string value = .ok r) ∧ (∃ r, deserializer.number value = .ok r) ∧
    (∃ r, deserializer.date value = .ok r) ∧ (∃ r, deserializer.boolean value = .ok r) ∧
    (∃ r, deserializer.numberSet value = .ok r) ∧
    (∃ r, deserializer.stringSet value = .ok r) := by
  obtain ⟨s, hs⟩ := getProp_of_truthy value "S" h
  obtain ⟨n, hn⟩ := getProp_of_truthy value "N" h
  obtain ⟨ss, hss⟩ := getProp_of_truthy value "SS" h
  obtain ⟨ns, hns⟩ := getProp_of_truthy value "NS" h
  refine ⟨?_, ?_, ?_, ?_, ?_, ?_⟩
  · simp only [deserializer.string, hs, hn, bind, Except.bind, pure, Except.pure]
    split
    · exact ⟨_, rfl⟩
    · split <;> exact ⟨_, rfl⟩
  · simp only [deserializer.number, hs, hn, bind, Except.bind, pure, Except.pure]
    split
    · exact ⟨_, rfl⟩
    · split <;> exact ⟨_, rfl⟩
  · simp only [deserializer.date, hs, hn, bind, Except.bind, pure, Except.pure]
    split
    · exact ⟨_, rfl⟩
    · split <;> exact ⟨_, rfl⟩
  · simp only [deserializer.boolean, hs, hn, bind, Except.bind, pure, Except.pure]
    split
    · exact ⟨_, rfl⟩
    · split <;> exact ⟨_, rfl⟩
  · simp only [deserializer.numberSet, hs, hn, hss, hns, bind, Except.bind, pure, Except.pure]
    split
    · exact ⟨_, rfl⟩
    · split
      · exact ⟨_, rfl⟩
      · split
        · exact ⟨_, rfl⟩
        · split <;> exact ⟨_, rfl⟩
  · simp only [deserializer.stringSet, hs, hn, hss, hns, bind, Except.bind, pure, Except.pure]
    split
    · exact ⟨_, rfl⟩
    · split
      · exact ⟨_, rfl⟩
      · split
        · exact ⟨_, rfl⟩
        · split <;> exact ⟨_, rfl⟩

/-- A truthy wire value under an unsupported type tag reaches the default
branch of the type switch. -/
theorem deserializeAttribute_unsupported (value : JsVal) (attr : Attr)
    (htag : attr.type.type ∉ supportedTypes) (hv : value.truthy = true) :
    internals.deserializeAttribute value (some attr) =
      .error (unsupportedType attr.type.type) := by
  obtain ⟨h1, h2, h3, h4, h5, h6⟩ := (not_supported_iff _).1 htag
  simp only [internals.deserializeAttribute, hv, h1, h2, h3, h4, h5, h6, if_false,
    Bool.not_true, Bool.false_eq_true]
  rfl

/-- A falsy wire value decodes to `null` whatever the type tag. -/
theorem deserializeAttribute_falsy (value : JsVal) (attr : Option Attr)
    (hv : value.truthy = false) :
    internals.deserializeAttribute value attr = .ok .null := by
  cases attr with
  | none => rfl
  | some a => simp [internals.deserializeAttribute, hv, pure, Except.pure]

/-- The only error of `deserializeAttribute` is the one of the default branch
of the type switch, on a truthy wire value. -/
theorem deserializeAttribute_error (value : JsVal) (attr : Attr) (err : JsError)
    (h : internals.deserializeAttribute value (some attr) = .error err) :
    value.truthy = true ∧ attr.type.type ∉ supportedTypes ∧
      err = unsupportedType attr.type.type := by
  by_cases hv : value.truthy = true
  · obtain ⟨⟨r1, h1⟩, ⟨r2, h2⟩, ⟨r3, h3⟩, ⟨r4, h4⟩, ⟨r5, h5⟩, ⟨r6, h6⟩⟩ :=
      deserializer_ok value hv
    by_cases htag : attr.type.type ∉ supportedTypes
    · rw [deserializeAttribute_unsupported value attr htag hv] at h
      exact ⟨hv, htag, (Except.error.inj h).symm⟩
    · exfalso
      unfold internals.deserializeAttribute at h
      simp only [hv, Bool.not_true, Bool.false_eq_true, if_false, h1, h2, h3, h4, h5, h6] at h
      split at h
      · cases h
      split at h
      · cases h
      split at h
      · cases h
      split at h
      · cases h
      split at h
      · cases h
      split at h
      · cases h
      · apply htag
        refine (not_supported_iff _).2 ⟨?_, ?_, ?_, ?_, ?_, ?_⟩ <;> assumption
  · rw [deserializeAttribute_falsy value _ (by simpa using hv)] at h
    cases h

theorem deserializeAttribute_ok (value : JsVal) (attr : Attr)
    (htag : attr.type.type ∈ supportedTypes) :
    ∃ r, internals.deserializeAttribute value (some attr) = .ok r := by
  cases h : internals.deserializeAttribute value (some attr) with
  | ok r => exact ⟨r, rfl⟩
  | error err => exact absurd htag (deserializeAttribute_error value attr err h).2.1

theorem serializeItem_key_present (schema : Schema) (record : Props) (options : Options)
    (r : JsVal) (h : serializer.serializeItem schema (.obj record) options = .ok r) :
    ∃ props, r = .obj props ∧ ∀ k, (props.lookup k).isSome = true →
      (record.lookup k).isSome = true := by
  obtain ⟨props, rfl, hfold⟩ := (serializeItem_ok_iff _ _ _ _).1 h
  refine ⟨props, rfl, ?_⟩
  intro k hsome
  obtain ⟨v, hv⟩ := Option.isSome_iff_exists.1 hsome
  rcases writeStep_lookup_origin _ k v schema.attrs _ _ hfold hv with h0 | ⟨e, _, hk, hw⟩
  · simp [List.lookup] at h0
  · by_cases hhas : (JsVal.obj record).has e.1 = true
    · rw [← hk]
      simpa [JsVal.has] using hhas
    · simp [serializeItemWrite, hhas] at hw

/-- The record `buildKey` serializes when its first argument is a plain
object. -/
theorem buildKey_obj (o : Props) (r : JsVal) (schema : Schema) :
    serializer.buildKey (.obj o) r schema =
      serializer.serializeItem schema
        (.obj (match schema.rangeKey with
          | some rk =>
            if schema.hasRangeKey then
              setProp rk ((o.lookup rk).getD .undefined)
                [(schema.hashKey, (o.lookup schema.hashKey).getD .undefined)]
            else [(schema.hashKey, (o.lookup schema.hashKey).getD .undefined)]
          | none => [(schema.hashKey, (o.lookup schema.hashKey).getD .undefined)]))
        noOptions := by
  unfold serializer.buildKey
  cases hrk : schema.rangeKey with
  | none => rfl
  | some rk =>
    by_cases hh : schema.hasRangeKey = true
    · simp only [JsVal.isPlainObject, if_true, JsVal.getProp, hh]
      rfl
    · simp only [JsVal.isPlainObject, if_true, JsVal.getProp, hh]
      rfl

/-- C14. For every schema and every plain object `o` passed as first
argument: `buildKey` is `serializeItem` applied to the record that holds
`o[hashKey]` under the hash key name, and `o[rangeKey]` under the range key
name when the schema declares a range key; a result has no key other than
these two names; and the call does not depend on the second argument nor on
any other field of `o`. -/
theorem buildKey_plain_object (schema : Schema) (o : Props) (r : JsVal) :
    (schema.hasRangeKey = false →
      serializer.buildKey (.obj o) r schema =
        serializer.serializeItem schema
          (.obj [(schema.hashKey, (o.lookup schema.hashKey).getD .undefined)]) noOptions) ∧
    (∀ rk, schema.rangeKey = some rk → rk ≠ "" →
      serializer.buildKey (.obj o) r schema =
        serializer.serializeItem schema
          (.obj (setProp rk ((o.lookup rk).getD .undefined)
            [(schema.hashKey, (o.lookup schema.hashKey).getD .undefined)])) noOptions) ∧
    (∀ res, serializer.buildKey (.obj o) r schema = .ok res →
      ∃ props, res = .obj props ∧
        ∀ k, (props.lookup k).isSome = true → k = schema.hashKey ∨ schema.rangeKey = some k) ∧
    (∀ (o2 : Props) (r2 : JsVal),
      (o2.lookup schema.hashKey).getD .undefined = (o.lookup schema.hashKey).getD .undefined →
      (∀ rk, schema.rangeKey = some rk →
        (o2.lookup rk).getD .undefined = (o.lookup rk).getD .undefined) →
      serializer.buildKey (.obj o2) r2 schema = serializer.buildKey (.obj o) r schema) := by
  refine ⟨?_, ?_, ?_, ?_⟩
  · intro hno
    rw [buildKey_obj]
    cases hrk : schema.rangeKey with
    | none => rfl
    | some rk => simp only [hno, Bool.false_eq_true, if_false]
  · intro rk hrk hne
    rw [buildKey_obj]
    have hh : schema.hasRangeKey = true := by simp [Schema.hasRangeKey, hrk, hne]
    simp only [hrk, hh, if_true]
  · intro res hres
    rw [buildKey_obj] at hres
    obtain ⟨props, rfl, hkeys⟩ := serializeItem_key_present _ _ _ _ hres
    refine ⟨props, rfl, ?_⟩
    intro k hk
    have hrec := hkeys k hk
    by_cases hkh : k = schema.hashKey
    · exact Or.inl hkh
    · right
      have hbeq : (k == schema.hashKey) = false := by simpa using hkh
      cases hrk : schema.rangeKey with
      | none =>
        rw [hrk] at hrec
        simp [List.lookup, hbeq] at hrec
      | some rk =>
        rw [hrk] at hrec
        by_cases hkr : k = rk
        · rw [hkr]
        · exfalso
          by_cases hh : schema.hasRangeKey = true
          · simp only [hh, if_true] at hrec
            rw [lookup_setProp_ne hkr] at hrec
            simp [List.lookup, hbeq] at hrec
          · simp only [hh] at hrec
            simp [List.lookup, hbeq] at hrec
  · intro o2 r2 hhash hrange
    rw [buildKey_obj, buildKey_obj, hhash]
    cases hrk : schema.rangeKey with
    | none => rfl
    | some rk => simp only [hrange rk hrk]

/-- C15. For a schema that declares no range key, `buildKey` gives the same
for any two range values, whatever the hash value is. -/
theorem buildKey_ignores_range (schema : Schema) (h r r2 : JsVal)
    (hno : schema.hasRangeKey = false) :
    serializer.buildKey h r schema = serializer.buildKey h r2 schema := by
  unfold serializer.buildKey
  cases hrk : schema.rangeKey with
  | none => rfl
  | some rk => simp only [hno, Bool.false_eq_true, if_false]

/-- C15, at a schema without range key, a bare hash value and two range
values: both calls give the key with the hash attribute only. -/
theorem buildKey_ignores_range_witness :
    serializer.buildKey (.str "a1") (.num (.int 5))
        ⟨"id", none, [("id", ⟨⟨"String"⟩⟩), ("ts", ⟨⟨"Number"⟩⟩)]⟩ =
      .ok (.obj [("id", .obj [("S", .str "a1")])]) ∧
    serializer.buildKey (.str "a1") (.num (.int 5))
        ⟨"id", none, [("id", ⟨⟨"String"⟩⟩), ("ts", ⟨⟨"Number"⟩⟩)]⟩ =
      serializer.buildKey (.str "a1") (.str "other")
        ⟨"id", none, [("id", ⟨⟨"String"⟩⟩), ("ts", ⟨⟨"Number"⟩⟩)]⟩ :=
  ⟨by decide,
    buildKey_ignores_range ⟨"id", none, [("id", ⟨⟨"String"⟩⟩), ("ts", ⟨⟨"Number"⟩⟩)]⟩
      (.str "a1") (.num (.int 5)) (.str "other") (by decide)⟩

/-- The key of a record with other fields, under a schema with a range key. -/
theorem buildKey_example_with_range_key :
    serializer.buildKey (.obj [("name", .str "x"), ("ts", .num (.int 5)), ("id", .str "a1")])
        (.str "ignored")
        ⟨"id", some "ts", [("id", ⟨⟨"String"⟩⟩), ("ts", ⟨⟨"Number"⟩⟩), ("name", ⟨⟨"String"⟩⟩)]⟩ =
      .ok (.obj [("id", .obj [("S", .str "a1")]), ("ts", .obj [("N", .str "5")])]) := by
  decide

/-! ## `deserializeKeys` -/

theorem lookup_of_mem_nodup : ∀ (l : List (String × Attr)), (l.map Prod.fst).Nodup →
    ∀ k a, (k, a) ∈ l → l.lookup k = some a := by
  intro l
  induction l with
  | nil => intro _ k a h; cases h
  | cons p rest ih =>
    intro hnd k a h
    obtain ⟨k2, a2⟩ := p
    simp only [List.map_cons, List.nodup_cons] at hnd
    rcases List.mem_cons.1 h with heq | hmem
    · cases heq
      simp [List.lookup]
    · have hne : k ≠ k2 := by
        intro hk
        apply hnd.1
        rw [← hk]
        exact List.mem_map.2 ⟨(k, a), hmem, rfl⟩
      have hbeq : (k == k2) = false := by simpa using hne
      simp only [List.lookup, hbeq]
      exact ih hnd.2 k a hmem

/-- Every step of a reduction that returns has returned. -/
theorem writeStep_ok_each (w : String × Attr → Except JsError (Option JsVal))
    (l : List (String × Attr)) :
    ∀ (acc r : Props), l.foldlM (writeStep w) acc = .ok r → ∀ e ∈ l, ∃ o, w e = .ok o := by
  induction l with
  | nil => intro _ _ _ e he; cases he
  | cons p l ih =>
    intro acc r h e he
    rw [foldlM_writeStep_cons] at h
    cases hw : w p with
    | error err => rw [hw] at h; cases h
    | ok o =>
      rw [hw] at h
      rcases List.mem_cons.1 he with rfl | he
      · exact ⟨o, hw⟩
      · exact ih _ _ h e he

/-- What a returning `deserializeItem` holds for a declared attribute, under
unique attribute names: the decoding of the wire entry with the descriptor
`schema.attrs` holds for the name. -/
theorem deserializeItem_entry (schema : Schema) (wire props : Props)
    (hnodup : (schema.attrs.map Prod.fst).Nodup)
    (hfold : schema.attrs.foldlM (writeStep (deserializeItemWrite (.obj wire))) [] = .ok props)
    (k : String) (a : Attr) (hk : (k, a) ∈ schema.attrs) :
    ∃ v, internals.deserializeAttribute ((wire.lookup k).getD .undefined)
        (schema.attrs.lookup k) = .ok v ∧ props.lookup k = some v := by
  rw [lookup_of_mem_nodup _ hnodup k a hk]
  obtain ⟨o, ho⟩ := writeStep_ok_each _ _ _ _ hfold (k, a) hk
  simp only [deserializeItemWrite, JsVal.getProp] at ho
  cases hd : internals.deserializeAttribute ((wire.lookup k).getD .undefined) (some a) with
  | error err => rw [hd] at ho; cases ho
  | ok v =>
    refine ⟨v, rfl, ?_⟩
    refine writeStep_lookup_written _ k v schema.attrs ?_ _ _ hfold (Or.inr ⟨_, hk, rfl⟩)
    intro e2 he2 hk2
    have he2k : (k, e2.2) ∈ schema.attrs := by rw [← hk2]; exact he2
    have ha : some e2.2 = some a := by
      rw [← lookup_of_mem_nodup _ hnodup k e2.2 he2k, lookup_of_mem_nodup _ hnodup k a hk]
    have ha2 : e2.2 = a := Option.some.inj ha
    simp only [deserializeItemWrite, JsVal.getProp, hk2, ha2, hd]

/-- C16, as stated, fails when an attribute that is no key has a type tag
outside the closed set and a truthy wire entry: `deserializeKeys` returns the
decoded key, `deserializeItem` throws. -/
theorem deserializeKeys_counterexample :
    serializer.deserializeKeys ⟨"id", none, [("id", ⟨⟨"String"⟩⟩), ("data", ⟨⟨"Blob"⟩⟩)]⟩
        (.obj [("id", .obj [("S", .str "a1")]), ("data", .obj [("S", .str "x")])]) =
      .ok (.obj [("id", .str "a1")]) ∧
    serializer.deserializeItem ⟨"id", none, [("id", ⟨⟨"String"⟩⟩), ("data", ⟨⟨"Blob"⟩⟩)]⟩
        (.obj [("id", .obj [("S", .str "a1")]), ("data", .obj [("S", .str "x")])]) =
      .error (unsupportedType "Blob") := by
  decide

/-- C16, amended. For a schema with unique attribute names whose hash key,
and range key if declared, are attributes of `schema.attrs`, and a wire record
that is an object: when `deserializeItem` returns a result, `deserializeKeys`
returns one too, and it holds under the hash key name, and the range key name
if declared, what the result of `deserializeItem` holds there, and has no
other key; and `deserializeItem` returns a result when all declared type tags
are in the closed set. -/
theorem deserializeKeys_restricts (schema : Schema) (wire : Props)
    (hnodup : (schema.attrs.map Prod.fst).Nodup)
    (hhash : ∃ a, (schema.hashKey, a) ∈ schema.attrs)
    (hrange : ∀ rk, schema.rangeKey = some rk → ∃ a, (rk, a) ∈ schema.attrs) :
    (∀ props, serializer.deserializeItem schema (.obj wire) = .ok (.obj props) →
      ∃ keys, serializer.deserializeKeys schema (.obj wire) = .ok (.obj keys) ∧
        ∀ k, keys.lookup k =
          if k = schema.hashKey ∨ (schema.hasRangeKey = true ∧ schema.rangeKey = some k) then
            props.lookup k
          else none) ∧
    ((∀ e ∈ schema.attrs, e.2.type.type ∈ supportedTypes) →
      ∃ props, serializer.deserializeItem schema (.obj wire) = .ok (.obj props)) := by
  constructor
  · intro props hitem
    have hfold : schema.attrs.foldlM (writeStep (deserializeItemWrite (.obj wire))) [] =
        .ok props := by
      rw [deserializeItem_obj] at hitem
      cases hf : schema.attrs.foldlM (writeStep (deserializeItemWrite (.obj wire))) [] with
      | error err => rw [hf] at hitem; cases hitem
      | ok p =>
        rw [hf] at hitem
        simp only [Except.ok.injEq, JsVal.obj.injEq] at hitem
        rw [hitem]
    obtain ⟨a, ha⟩ := hhash
    obtain ⟨v, hv, hpv⟩ := deserializeItem_entry schema wire props hnodup hfold _ a ha
    cases hrk : schema.rangeKey with
    | none =>
      refine ⟨[(schema.hashKey, v)], ?_, ?_⟩
      · simp only [serializer.deserializeKeys, JsVal.getProp, hv, hrk, bind, Except.bind,
          pure, Except.pure, setProp]
      · intro k
        by_cases hk : k = schema.hashKey
        · subst hk
          simp [List.lookup, hpv]
        · have hbeq : (k == schema.hashKey) = false := by simpa using hk
          simp [List.lookup, hbeq, hk]
    | some rk =>
      by_cases hh : schema.hasRangeKey = true
      · obtain ⟨ar, har⟩ := hrange rk hrk
        obtain ⟨vr, hvr, hpvr⟩ := deserializeItem_entry schema wire props hnodup hfold _ ar har
        refine ⟨setProp rk vr [(schema.hashKey, v)], ?_, ?_⟩
        · simp only [serializer.deserializeKeys, JsVal.getProp, hv, hvr, hrk, hh, bind,
            Except.bind, pure, Except.pure, setProp, if_true]
        · intro k
          by_cases hkr : k = rk
          · subst hkr
            simp [lookup_setProp_self, hh, hpvr]
          · rw [lookup_setProp_ne hkr]
            by_cases hk : k = schema.hashKey
            · subst hk
              simp [List.lookup, hpv]
            · have hbeq : (k == schema.hashKey) = false := by simpa using hk
              have hkr2 : ¬ rk = k := fun h => hkr h.symm
              simp [List.lookup, hbeq, hk, hkr2]
      · have hh2 : schema.hasRangeKey = false := by simpa using hh
        refine ⟨[(schema.hashKey, v)], ?_, ?_⟩
        · simp only [serializer.deserializeKeys, JsVal.getProp, hv, hrk, hh2, bind,
            Except.bind, pure, Except.pure, setProp, Bool.false_eq_true, if_false]
        · intro k
          by_cases hk : k = schema.hashKey
          · subst hk
            simp [List.lookup, hpv]
          · have hbeq : (k == schema.hashKey) = false := by simpa using hk
            simp [List.lookup, hbeq, hk, hh2]
  · intro htags
    have hall : ∀ e ∈ schema.attrs, ∃ o, deserializeItemWrite (.obj wire) e = .ok o := by
      intro e he
      obtain ⟨r, hr⟩ := deserializeAttribute_ok ((wire.lookup e.1).getD .undefined) e.2
        (htags e he)
      exact ⟨some r, by simp only [deserializeItemWrite, JsVal.getProp, hr]⟩
    obtain ⟨props, hprops⟩ := writeStep_ok _ schema.attrs hall []
    exact ⟨props, by rw [deserializeItem_obj, hprops]⟩

/-- C16, amended, at a schema with hash key `id` and range key `ts` and a wire
record with an entry for each attribute. -/
theorem deserializeKeys_restricts_witness :
    serializer.deserializeKeys
        ⟨"id", some "ts", [("id", ⟨⟨"String"⟩⟩), ("ts", ⟨⟨"Number"⟩⟩), ("name", ⟨⟨"String"⟩⟩)]⟩
        (.obj [("id", .obj [("S", .str "a1")]), ("ts", .obj [("N", .str "5")]),
          ("name", .obj [("S", .str "x")])]) =
      .ok (.obj [("id", .str "a1"), ("ts", .num (.int 5))]) ∧
    ∃ keys, serializer.deserializeKeys
        ⟨"id", some "ts", [("id", ⟨⟨"String"⟩⟩), ("ts", ⟨⟨"Number"⟩⟩), ("name", ⟨⟨"String"⟩⟩)]⟩
        (.obj [("id", .obj [("S", .str "a1")]), ("ts", .obj [("N", .str "5")]),
          ("name", .obj [("S", .str "x")])]) = .ok (.obj keys) ∧
      ∀ k, keys.lookup k =
        if k = "id" ∨ (true = true ∧ some "ts" = some k) then
          List.lookup k [("id", JsVal.str "a1"), ("ts", .num (.int 5)), ("name", .str "x")]
        else none :=
  ⟨by decide,
    (deserializeKeys_restricts
      ⟨"id", some "ts", [("id", ⟨⟨"String"⟩⟩), ("ts", ⟨⟨"Number"⟩⟩), ("name", ⟨⟨"String"⟩⟩)]⟩
      [("id", .obj [("S", .str "a1")]), ("ts", .obj [("N", .str "5")]),
        ("name", .obj [("S", .str "x")])]
      (by decide) ⟨⟨⟨"String"⟩⟩, by simp⟩
      (by
        intro rk hrk
        have h : rk = "ts" := (Option.some.inj hrk).symm
        subst h
        exact ⟨⟨⟨"Number"⟩⟩, by simp⟩)).1
      [("id", .str "a1"), ("ts", .num (.int 5)), ("name", .str "x")] (by decide)⟩

/-! ## The Boolean codec -/

theorem booleanTest_iff (v : JsVal) :
    serialize.booleanTest v = true ↔ (v.truthy = true ∧ v ≠ .str "false") := by
  cases v <;> simp [serialize.booleanTest, JsVal.truthy]

/-- C17. Boolean codec: for every value other than `null` and a Boolean
attribute, under any options, `serializeAttribute` gives 1 under the tag N
when the value is truthy and is not the text false, and decoding that wire
value gives `true`; otherwise it gives 0 under the tag N, and decoding that
wire value gives `false`. -/
theorem boolean_codec (v : JsVal) (options : Options) (hv : v ≠ .null) :
    ((v.truthy = true ∧ v ≠ .str "false") →
      internals.serializeAttribute v (some ⟨⟨"Boolean"⟩⟩) options =
        .ok (.obj [("N", .str "1")]) ∧
      internals.deserializeAttribute (.obj [("N", .str "1")]) (some ⟨⟨"Boolean"⟩⟩) =
        .ok (.bool true)) ∧
    (¬ (v.truthy = true ∧ v ≠ .str "false") →
      internals.serializeAttribute v (some ⟨⟨"Boolean"⟩⟩) options =
        .ok (.obj [("N", .str "0")]) ∧
      internals.deserializeAttribute (.obj [("N", .str "0")]) (some ⟨⟨"Boolean"⟩⟩) =
        .ok (.bool false)) := by
  have hn : v.isNull = false := by
    cases v <;> simp [JsVal.isNull] at hv ⊢
  have henc : internals.serializeAttribute v (some ⟨⟨"Boolean"⟩⟩) options =
      .ok (serialize.boolean v) := by
    simp [internals.serializeAttribute, hn, pure, Except.pure]
  constructor
  · intro h
    have ht := (booleanTest_iff v).2 h
    exact ⟨by rw [henc, serialize.boolean, if_pos ht], by decide⟩
  · intro h
    have ht : ¬ serialize.booleanTest v = true := fun ht => h ((booleanTest_iff v).1 ht)
    exact ⟨by rw [henc, serialize.boolean, if_neg ht], by decide⟩

/-- C17, at the values of the example: `true` and 5 encode to 1 and decode
to `true`; `false` and the text false encode to 0 and decode to `false`; the
text 0 encodes to 1 and decodes to `true`. -/
theorem boolean_codec_witness :
    (internals.serializeAttribute (.num (.int 5)) (some ⟨⟨"Boolean"⟩⟩) noOptions =
        .ok (.obj [("N", .str "1")]) ∧
      internals.deserializeAttribute (.obj [("N", .str "1")]) (some ⟨⟨"Boolean"⟩⟩) =
        .ok (.bool true)) ∧
    internals.serializeAttribute (.bool true) (some ⟨⟨"Boolean"⟩⟩) noOptions =
      .ok (.obj [("N", .str "1")]) ∧
    internals.serializeAttribute (.bool false) (some ⟨⟨"Boolean"⟩⟩) noOptions =
      .ok (.obj [("N", .str "0")]) ∧
    internals.serializeAttribute (.str "false") (some ⟨⟨"Boolean"⟩⟩) noOptions =
      .ok (.obj [("N", .str "0")]) ∧
    internals.serializeAttribute (.str "0") (some ⟨⟨"Boolean"⟩⟩) noOptions =
      .ok (.obj [("N", .str "1")]) ∧
    internals.deserializeAttribute (.obj [("N", .str "0")]) (some ⟨⟨"Boolean"⟩⟩) =
      .ok (.bool false) :=
  ⟨(boolean_codec (.num (.int 5)) noOptions (by decide)).1 (by decide),
    by decide, by decide, by decide, by decide, by decide⟩

/-! ## `convertSets` -/

theorem serializeAttribute_convertSets (value : JsVal) (attr : Attr) (rn ex : Bool) :
    internals.serializeAttribute value (some attr) ⟨true, rn, ex⟩ =
      internals.serializeAttribute value (some (scalarAttr attr)) ⟨false, rn, ex⟩ := by
  obtain ⟨⟨t⟩⟩ := attr
  by_cases h1 : t = "StringSet"
  · subst h1
    simp [internals.serializeAttribute, scalarAttr]
  · by_cases h2 : t = "NumberSet"
    · subst h2
      simp [internals.serializeAttribute, scalarAttr]
    · simp [internals.serializeAttribute, scalarAttr, h1, h2]

theorem serializeItemStep_convertSets (item : JsVal) (rn ex : Bool) (result : Props)
    (e : String × Attr) :
    serializer.serializeItemStep item ⟨true, rn, ex⟩ result e =
      serializer.serializeItemStep item ⟨false, rn, ex⟩ result (e.1, scalarAttr e.2) := by
  unfold serializer.serializeItemStep
  simp only [serializeAttribute_convertSets]

/-- Under `convertSets` a wire value is `null` or has the one tag S or N. -/
theorem serializeAttribute_convertSets_scalar (value : JsVal) (attr : Attr) (rn ex : Bool)
    (w : JsVal) (h : internals.serializeAttribute value (some attr) ⟨true, rn, ex⟩ = .ok w) :
    w = .null ∨ ∃ x, w = .obj [("S", x)] ∨ w = .obj [("N", x)] := by
  have hnum : ∀ w, serialize.number value = .ok w → ∃ x, w = .obj [("N", x)] := by
    intro w hw
    unfold serialize.number at hw
    cases ht : value.toStringMethod with
    | error err => rw [ht] at hw; cases hw
    | ok t =>
      rw [ht] at hw
      exact ⟨.str t, (Except.ok.inj hw).symm⟩
  have hdate : ∀ w, serialize.date value = .ok w → ∃ x, w = .obj [("S", x)] := by
    intro w hw
    have hgen : ∀ t : Option Int, (toISOString t >>= fun text =>
        (pure (JsVal.obj [("S", JsVal.str text)]) : Except JsError JsVal)) = .ok w →
        ∃ x, w = .obj [("S", x)] := by
      intro t ht
      cases t with
      | none => cases ht
      | some t => exact ⟨_, (Except.ok.inj ht).symm⟩
    cases value <;> exact hgen _ hw
  unfold internals.serializeAttribute at h
  simp only [] at h
  split at h
  · exact Or.inl (Except.ok.inj h).symm
  split at h
  · exact Or.inr ⟨value, Or.inl (Except.ok.inj h).symm⟩
  split at h
  · obtain ⟨x, hx⟩ := hnum _ h
    exact Or.inr ⟨x, Or.inr hx⟩
  split at h
  · obtain ⟨x, hx⟩ := hdate _ h
    exact Or.inr ⟨x, Or.inl hx⟩
  split at h
  · right
    have hw : w = serialize.boolean value := (Except.ok.inj h).symm
    rw [hw, serialize.boolean]
    split
    · exact ⟨_, Or.inr rfl⟩
    · exact ⟨_, Or.inr rfl⟩
  split at h
  · simp only [if_true] at h
    obtain ⟨x, hx⟩ := hnum _ h
    exact Or.inr ⟨x, Or.inr hx⟩
  split at h
  · simp only [if_true] at h
    exact Or.inr ⟨value, Or.inl (Except.ok.inj h).symm⟩
  · cases h

/-- C18. For every schema, record and setting of the other options,
`serializeItem` with `convertSets` set is `serializeItem` without it on the
schema that declares every StringSet attribute String and every NumberSet
attribute Number and leaves the other descriptors as they are; and under
`convertSets` the wire value of an attribute is `null` or has the one tag S
or N, never SS or NS. -/
theorem convertSets_scalar_encoding (schema : Schema) (rn ex : Bool) :
    (∀ item, serializer.serializeItem schema item ⟨true, rn, ex⟩ =
      serializer.serializeItem (scalarSchema schema) item ⟨false, rn, ex⟩) ∧
    (∀ value attr w,
      internals.serializeAttribute value (some attr) ⟨true, rn, ex⟩ = .ok w →
      w = .null ∨ ∃ x, w = .obj [("S", x)] ∨ w = .obj [("N", x)]) := by
  constructor
  · intro item
    unfold serializer.serializeItem
    have hfold : ∀ (l : List (String × Attr)) (acc : Props),
        l.foldlM (serializer.serializeItemStep item ⟨true, rn, ex⟩) acc =
          (l.map fun e => (e.1, scalarAttr e.2)).foldlM
            (serializer.serializeItemStep item ⟨false, rn, ex⟩) acc := by
      intro l
      induction l with
      | nil => intro acc; rfl
      | cons e l ih =>
        intro acc
        simp only [List.map_cons, List.foldlM_cons, serializeItemStep_convertSets]
        congr 1
        funext acc2
        exact ih acc2
    simp only [scalarSchema, hfold]
  · intro value attr w h
    exact serializeAttribute_convertSets_scalar value attr rn ex w h

/-- C18, at the example: under `convertSets` a StringSet attribute with the
text x encodes to that text under the tag S, and without `convertSets` the
array of x and y encodes to the array under the tag SS. -/
theorem convertSets_scalar_encoding_witness :
    serializer.serializeItem ⟨"id", none, [("id", ⟨⟨"String"⟩⟩), ("tags", ⟨⟨"StringSet"⟩⟩)]⟩
        (.obj [("id", .str "a1"), ("tags", .str "x")]) ⟨true, false, false⟩ =
      .ok (.obj [("id", .obj [("S", .str "a1")]), ("tags", .obj [("S", .str "x")])]) ∧
    serializer.serializeItem ⟨"id", none, [("id", ⟨⟨"String"⟩⟩), ("tags", ⟨⟨"StringSet"⟩⟩)]⟩
        (.obj [("id", .str "a1"), ("tags", .arr [.str "x", .str "y"])]) noOptions =
      .ok (.obj [("id", .obj [("S", .str "a1")]),
        ("tags", .obj [("SS", .arr [.str "x", .str "y"])])]) ∧
    serializer.serializeItem ⟨"id", none, [("n", ⟨⟨"NumberSet"⟩⟩)]⟩
        (.obj [("n", .num (.int 7))]) ⟨true, false, false⟩ =
      .ok (.obj [("n", .obj [("N", .str "7")])]) :=
  ⟨by
      rw [(convertSets_scalar_encoding
        ⟨"id", none, [("id", ⟨⟨"String"⟩⟩), ("tags", ⟨⟨"StringSet"⟩⟩)]⟩ false false).1]
      decide,
    by decide, by decide⟩

/-! ## StringSet decoding -/

/-- C19, as stated, fails at an empty Wire String: the wire value whose one
tag S holds the empty text decodes to the empty array, not to the array of
that text; and the empty Wire String is what `serializeAttribute` gives the
empty text for a StringSet attribute under `convertSets`. -/
theorem stringSet_empty_string_counterexample :
    deserializer.stringSet (.obj [("S", .str "")]) = .ok (.arr []) ∧
    (Except.ok (.arr []) : Except JsError JsVal) ≠ .ok (.arr [.str ""]) ∧
    internals.serializeAttribute (.str "") (some ⟨⟨"StringSet"⟩⟩) ⟨true, false, false⟩ =
      .ok (.obj [("S", .str "")]) := by
  decide

/-- C19, amended. StringSet decoding of a wire value that is an object whose
tags SS and NS, where present, hold arrays and whose tags S and N, where
present, hold texts: the result is the array under SS if there is one; else
the array under NS if there is one; else the one-element array of the text
under S if there is one and it is not empty; else the one-element array of
the text under N if there is one and it is not empty; else the empty array.
It never fails and never is `null`. -/
theorem stringSet_precedence (fields : Props) (ss ns : Option (List JsVal))
    (s n : Option String)
    (hss : fields.lookup "SS" = ss.map JsVal.arr) (hns : fields.lookup "NS" = ns.map JsVal.arr)
    (hs : fields.lookup "S" = s.map JsVal.str) (hn : fields.lookup "N" = n.map JsVal.str) :
    deserializer.stringSet (.obj fields) =
      .ok (match ss with
        | some xs => .arr xs
        | none =>
          match ns with
          | some xs => .arr xs
          | none =>
            if s.getD "" ≠ "" then .arr [.str (s.getD "")]
            else if n.getD "" ≠ "" then .arr [.str (n.getD "")]
            else .arr []) := by
  simp only [deserializer.stringSet, JsVal.getProp, hss, hns, hs, hn, bind, Except.bind, pure,
    Except.pure]
  cases ss with
  | some xs => simp [JsVal.truthy]
  | none =>
    cases ns with
    | some xs => simp [JsVal.truthy]
    | none =>
      cases s with
      | none =>
        cases n with
        | none => simp [JsVal.truthy]
        | some t =>
          by_cases ht : t = ""
          · simp [JsVal.truthy, ht]
          · simp [JsVal.truthy, ht]
      | some u =>
        by_cases hu : u = ""
        · cases n with
          | none => simp [JsVal.truthy, hu]
          | some t =>
            by_cases ht : t = ""
            · simp [JsVal.truthy, hu, ht]
            · simp [JsVal.truthy, hu, ht]
        · simp [JsVal.truthy, hu]

/-- C19, amended, at a wire value with the tags NS, S and N: the array under
NS wins. -/
theorem stringSet_precedence_witness :
    deserializer.stringSet
        (.obj [("N", .str "7"), ("S", .str "x"), ("NS", .arr [.str "1", .str "2"])]) =
      .ok (.arr [.str "1", .str "2"]) ∧
    deserializer.stringSet (.obj [("N", .str "7"), ("S", .str "x")]) = .ok (.arr [.str "x"]) ∧
    deserializer.stringSet (.obj [("N", .str "7")]) = .ok (.arr [.str "7"]) ∧
    deserializer.stringSet (.obj []) = .ok (.arr []) :=
  ⟨stringSet_precedence [("N", .str "7"), ("S", .str "x"), ("NS", .arr [.str "1", .str "2"])]
      none (some [.str "1", .str "2"]) (some "x") (some "7") (by decide) (by decide)
      (by decide) (by decide),
    by decide, by decide, by decide⟩

/-! ## Updates and full serialization -/

/-- The encoding of a value other than `null` is not `null`. -/
theorem serializeAttribute_not_null (value : JsVal) (attr : Attr) (options : Options)
    (w : JsVal) (hv : value.isNull = false)
    (h : internals.serializeAttribute value (some attr) options = .ok w) :
    w.isNull = false := by
  have hnum : ∀ w, serialize.number value = .ok w → w.isNull = false := by
    intro w hw
    unfold serialize.number at hw
    cases ht : value.toStringMethod with
    | error err => rw [ht] at hw; cases hw
    | ok t =>
      rw [ht] at hw
      rw [← Except.ok.inj hw]
      rfl
  have hdate : ∀ w, serialize.date value = .ok w → w.isNull = false := by
    intro w hw
    have hgen : ∀ t : Option Int, (toISOString t >>= fun text =>
        (pure (JsVal.obj [("S", JsVal.str text)]) : Except JsError JsVal)) = .ok w →
        w.isNull = false := by
      intro t ht
      cases t with
      | none => cases ht
      | some t => rw [← Except.ok.inj ht]; rfl
    cases value <;> exact hgen _ hw
  have hset : ∀ w, serialize.stringSet value = .ok w → w.isNull = false := by
    intro w hw
    have hone : ∀ v : JsVal, (v.toStringMethod >>= fun text =>
        (pure (JsVal.obj [("SS", JsVal.arr [JsVal.str text])]) : Except JsError JsVal)) =
          .ok w → w.isNull = false := by
      intro v hv2
      cases ht : v.toStringMethod with
      | error err => rw [ht] at hv2; cases hv2
      | ok t => rw [ht] at hv2; rw [← Except.ok.inj hv2]; rfl
    cases value with
    | arr xs =>
      unfold serialize.stringSet at hw
      simp only [] at hw
      cases hm : xs.mapM (fun v => v.toStringMethod) with
      | error err => rw [hm] at hw; cases hw
      | ok ts => rw [hm] at hw; rw [← Except.ok.inj hw]; rfl
    | _ => exact hone _ hw
  unfold internals.serializeAttribute at h
  simp only [hv, Bool.false_eq_true, if_false] at h
  split at h
  · rw [← Except.ok.inj h]; rfl
  split at h
  · exact hnum _ h
  split at h
  · exact hdate _ h
  split at h
  · rw [← Except.ok.inj h, serialize.boolean]
    split <;> rfl
  split at h
  · split at h
    · exact hnum _ h
    · rw [← Except.ok.inj h]
      cases value <;> rfl
  split at h
  · split at h
    · rw [← Except.ok.inj h]; rfl
    · exact hset _ h
  · cases h

/-- Two reductions over the same entries, the second writing nothing for the
excluded keys and the image under `f` of what the first writes for the other
keys: when the first returns, the second returns the image of its result
without the excluded keys. -/
theorem writeStep_restrict_map (wS wU : String × Attr → Except JsError (Option JsVal))
    (excl : String → Prop) (f : JsVal → JsVal) (l : List (String × Attr))
    (hex : ∀ e ∈ l, excl e.1 → wU e = .ok none)
    (hin : ∀ e ∈ l, ¬ excl e.1 → ∀ o, wS e = .ok o → wU e = .ok (o.map f)) :
    ∀ (accS accU full : Props),
      (∀ k, (excl k → accU.lookup k = none) ∧
        (¬ excl k → accU.lookup k = (accS.lookup k).map f)) →
      l.foldlM (writeStep wS) accS = .ok full →
      ∃ upd, l.foldlM (writeStep wU) accU = .ok upd ∧
        ∀ k, (excl k → upd.lookup k = none) ∧
          (¬ excl k → upd.lookup k = (full.lookup k).map f) := by
  induction l with
  | nil =>
    intro accS accU full hinv h
    simp only [List.foldlM_nil, pure, Except.pure, Except.ok.injEq] at h
    subst h
    exact ⟨accU, rfl, hinv⟩
  | cons e l ih =>
    intro accS accU full hinv h
    rw [foldlM_writeStep_cons] at h
    cases hw : wS e with
    | error err => rw [hw] at h; cases h
    | ok o =>
      rw [hw] at h
      rw [foldlM_writeStep_cons]
      by_cases hx : excl e.1
      · rw [hex e (List.mem_cons_self _ _) hx]
        refine ih (fun e2 he2 => hex e2 (List.mem_cons_of_mem _ he2))
          (fun e2 he2 => hin e2 (List.mem_cons_of_mem _ he2)) _ _ _ ?_ h
        intro k
        refine ⟨(hinv k).1, ?_⟩
        intro hk
        have hne : k ≠ e.1 := fun hke => hk (hke ▸ hx)
        rw [applyWrite, (hinv k).2 hk]
        cases o with
        | none => rfl
        | some v => rw [applyWrite, lookup_setProp_ne hne]
      · rw [hin e (List.mem_cons_self _ _) hx o hw]
        refine ih (fun e2 he2 => hex e2 (List.mem_cons_of_mem _ he2))
          (fun e2 he2 => hin e2 (List.mem_cons_of_mem _ he2)) _ _ _ ?_ h
        intro k
        cases o with
        | none => exact hinv k
        | some v =>
          simp only [Option.map, applyWrite]
          by_cases hke : k = e.1
          · subst hke
            exact ⟨fun hk => absurd hk hx, fun _ => by
              rw [lookup_setProp_self, lookup_setProp_self]⟩
          · rw [lookup_setProp_ne hke, lookup_setProp_ne hke]
            exact hinv k

/-- C20, as stated, fails when a key attribute holds a value its encoder
rejects: with a Date hash key holding a text that is no date, and likewise
with a Number hash key holding `undefined`, `serializeItemForUpdate` returns
the entry of the other attribute while `serializeItem` throws, so that there
is no result of `serializeItem` to compare with. -/
theorem update_agreement_counterexample :
    (∀ t ∈ ["Date", "Number", "String"], t ∈ supportedTypes) ∧
    serializer.serializeItemForUpdate ⟨"at", none, [("at", ⟨⟨"Date"⟩⟩), ("name", ⟨⟨"String"⟩⟩)]⟩
        (.str "PUT") (.obj [("at", .str "soon"), ("name", .str "x")]) =
      .ok (.obj [("name", .obj [("Action", .str "PUT"), ("Value", .obj [("S", .str "x")])])]) ∧
    serializer.serializeItem ⟨"at", none, [("at", ⟨⟨"Date"⟩⟩), ("name", ⟨⟨"String"⟩⟩)]⟩
        (.obj [("at", .str "soon"), ("name", .str "x")]) noOptions = .error .rangeError ∧
    serializer.serializeItemForUpdate ⟨"id", none, [("id", ⟨⟨"Number"⟩⟩), ("name", ⟨⟨"String"⟩⟩)]⟩
        (.str "PUT") (.obj [("id", .undefined), ("name", .str "x")]) =
      .ok (.obj [("name", .obj [("Action", .str "PUT"), ("Value", .obj [("S", .str "x")])])]) ∧
    serializer.serializeItem ⟨"id", none, [("id", ⟨⟨"Number"⟩⟩), ("name", ⟨⟨"String"⟩⟩)]⟩
        (.obj [("id", .undefined), ("name", .str "x")]) noOptions = .error .typeError := by
  decide

/-- C20, amended. For every schema, every default action and every record
whose values for the declared attributes are neither `null` nor plain
objects: when `serializeItem` returns a result, `serializeItemForUpdate`
returns one too; it has no entry for the hash key and the range key, and for
every other key it has an entry exactly when the result of `serializeItem`
has one, namely the object with `Action` the default action and `Value` the
wire value `serializeItem` gives that key. -/
theorem update_agrees_with_serializeItem (schema : Schema) (action : JsVal) (record full : Props)
    (hvals : ∀ e ∈ schema.attrs, ∀ x, record.lookup e.1 = some x →
      x.isNull = false ∧ x.isPlainObject = false)
    (hfull : serializer.serializeItem schema (.obj record) noOptions = .ok (.obj full)) :
    ∃ upd, serializer.serializeItemForUpdate schema action (.obj record) = .ok (.obj upd) ∧
      ∀ k, ((k = schema.hashKey ∨ schema.rangeKey = some k) → upd.lookup k = none) ∧
        (¬ (k = schema.hashKey ∨ schema.rangeKey = some k) →
          upd.lookup k =
            (full.lookup k).map fun w => .obj [("Action", action), ("Value", w)]) := by
  obtain ⟨props, hp, hfold⟩ := (serializeItem_ok_iff _ _ _ _).1 hfull
  cases hp
  obtain ⟨upd, hupd, hkeys⟩ := writeStep_restrict_map
    (serializeItemWrite (.obj record) noOptions) (updateWrite schema action (.obj record))
    (fun k => k = schema.hashKey ∨ schema.rangeKey = some k)
    (fun w => .obj [("Action", action), ("Value", w)]) schema.attrs
    (by
      intro e _ hx
      have hc : ¬ ((JsVal.obj record).has e.1 = true ∧ e.1 ≠ schema.hashKey ∧
          schema.rangeKey ≠ some e.1) := by
        rintro ⟨_, h1, h2⟩
        rcases hx with hx | hx
        · exact h1 hx
        · exact h2 hx
      rw [updateWrite, if_neg hc])
    (by
      intro e he hx o ho
      have hx2 : e.1 ≠ schema.hashKey ∧ schema.rangeKey ≠ some e.1 :=
        ⟨fun h => hx (Or.inl h), fun h => hx (Or.inr h)⟩
      cases hl : record.lookup e.1 with
      | none =>
        simp only [serializeItemWrite, JsVal.has, hl, Option.isSome_none, Bool.false_eq_true,
          if_false, Except.ok.injEq] at ho
        subst ho
        simp [updateWrite, JsVal.has, hl]
      | some x =>
        obtain ⟨hnn, hnp⟩ := hvals e he x hl
        have hd : ∀ name, directive x name = none := by
          intro name
          cases x <;> simp [JsVal.isPlainObject] at hnp <;> rfl
        simp only [serializeItemWrite, JsVal.has, hl, Option.isSome_some, if_true,
          JsVal.getProp, Option.getD_some] at ho
        have hc : (JsVal.obj record).has e.1 = true ∧ e.1 ≠ schema.hashKey ∧
            schema.rangeKey ≠ some e.1 := ⟨by simp [JsVal.has, hl], hx2⟩
        rw [updateWrite, if_pos hc]
        simp only [JsVal.getProp, hl, Option.getD_some, hnn, Bool.false_eq_true, if_false, hd]
        cases hs : internals.serializeAttribute x (some e.2) noOptions with
        | error err => rw [hs] at ho; cases ho
        | ok val =>
          rw [hs] at ho
          have hval := serializeAttribute_not_null x e.2 noOptions val hnn hs
          simp only [hval, Bool.not_false, Bool.true_or, if_true, noOptions,
            Bool.false_eq_true, if_false, Except.ok.injEq] at ho
          subst ho
          rfl)
    [] [] full (fun k => ⟨fun _ => rfl, fun _ => rfl⟩) hfold
  exact ⟨upd, (serializeItemForUpdate_ok_iff _ _ _ _).2 ⟨upd, rfl, hupd⟩, hkeys⟩

/-- C20, amended, at a schema with hash key `id` and range key `ts` and a
record of plain values. -/
theorem update_agrees_with_serializeItem_witness :
    serializer.serializeItemForUpdate
        ⟨"id", some "ts", [("id", ⟨⟨"String"⟩⟩), ("ts", ⟨⟨"Number"⟩⟩), ("name", ⟨⟨"String"⟩⟩),
          ("tags", ⟨⟨"StringSet"⟩⟩)]⟩
        (.str "PUT")
        (.obj [("id", .str "a1"), ("ts", .num (.int 5)), ("name", .str "x"),
          ("tags", .arr [.str "u"])]) =
      .ok (.obj [("name", .obj [("Action", .str "PUT"), ("Value", .obj [("S", .str "x")])]),
        ("tags", .obj [("Action", .str "PUT"), ("Value", .obj [("SS", .arr [.str "u"])])])]) ∧
    ∃ upd, serializer.serializeItemForUpdate
        ⟨"id", some "ts", [("id", ⟨⟨"String"⟩⟩), ("ts", ⟨⟨"Number"⟩⟩), ("name", ⟨⟨"String"⟩⟩),
          ("tags", ⟨⟨"StringSet"⟩⟩)]⟩
        (.str "PUT")
        (.obj [("id", .str "a1"), ("ts", .num (.int 5)), ("name", .str "x"),
          ("tags", .arr [.str "u"])]) = .ok (.obj upd) ∧
      ∀ k, ((k = "id" ∨ some "ts" = some k) → upd.lookup k = none) ∧
        (¬ (k = "id" ∨ some "ts" = some k) →
          upd.lookup k =
            (List.lookup k [("id", JsVal.obj [("S", .str "a1")]), ("ts", .obj [("N", .str "5")]),
              ("name", .obj [("S", .str "x")]),
              ("tags", .obj [("SS", .arr [.str "u"])])]).map
              fun w => .obj [("Action", .str "PUT"), ("Value", w)]) :=
  ⟨by decide,
    update_agrees_with_serializeItem
      ⟨"id", some "ts", [("id", ⟨⟨"String"⟩⟩), ("ts", ⟨⟨"Number"⟩⟩), ("name", ⟨⟨"String"⟩⟩),
        ("tags", ⟨⟨"StringSet"⟩⟩)]⟩
      (.str "PUT")
      [("id", .str "a1"), ("ts", .num (.int 5)), ("name", .str "x"), ("tags", .arr [.str "u"])]
      [("id", .obj [("S", .str "a1")]), ("ts", .obj [("N", .str "5")]),
        ("name", .obj [("S", .str "x")]), ("tags", .obj [("SS", .arr [.str "u"])])]
      (by
        intro e he x hx
        simp only [List.mem_cons, List.mem_singleton, List.not_mem_nil, or_false] at he
        rcases he with rfl | rfl | rfl | rfl
        · have h : x = .str "a1" := (Option.some.inj hx).symm
          subst h; exact ⟨rfl, rfl⟩
        · have h : x = .num (.int 5) := (Option.some.inj hx).symm
          subst h; exact ⟨rfl, rfl⟩
        · have h : x = .str "x" := (Option.some.inj hx).symm
          subst h; exact ⟨rfl, rfl⟩
        · have h : x = .arr [.str "u"] := (Option.some.inj hx).symm
          subst h; exact ⟨rfl, rfl⟩)
      (by decide)⟩

end Vogels
